import Mathlib

/-!
A shallow embedding of `vector.h` (RawMemory / Vector).

The allocation owned by a `RawMemory<T>` is modelled as a list of slots, one per
element the allocation can hold; `capacity_` is the length of that list.  A slot is
`none` while it is raw (unconstructed or destroyed) memory and `some x` while it holds
a live object of value `x`.

Element values are plain values: constructing an object from another one (by copy or by
move) gives the destination the value of the source, and the source stays a live object.
The source never reads a moved-from object again before overwriting or destroying it.

Every operation returns `Except Fault _`:
* `Fault.assertion`   : one of the `assert(...)` lines of the source fails;
* `Fault.outOfBounds` : a raw pointer obtained with `GetAddress() + k` is used outside the
  allocation, or an iterator range is reversed (undefined behaviour in C++);
* `Fault.notLive`     : an object is read, assigned to or destroyed in a slot that holds none;
* `Fault.underAllocated` : `Allocate` was asked for a byte count that wrapped in `size_t`, so
  the block holds fewer slots than the `capacity_` recorded for it.

Iterators are `T*`; a position is modelled by its offset from `begin()`.
`size_t` has 64 bits.  Sizes of sequences of live elements are bounded by what fits in
memory, so `size_ * 2`, `i + 1` and the byte counts of `size_ * 2` or `other.size_` elements
do not wrap; a capacity supplied by the caller (`Reserve`, `Resize`, `Vector(n)`) goes
through `RawMemory.create`, where the byte count `n * sizeof(T)` is taken modulo `2 ^ 64` as
in `Allocate`.  Every subtraction of the source either sits under a test that keeps it from
wrapping below zero or is guarded explicitly in the model.  A failing `operator new` is not
modelled here.

A second layer (`Outcome`, `ElementOps`, the definitions ending in `_ex`) follows the same
source lines with element constructors and assignments that may let an exception escape:
a move then leaves its source in a moved-from state chosen by the element type, the
`std::uninitialized_*` algorithms destroy what they had constructed before the exception
leaves them, and a call ends as `done` or `raised` with the state it leaves behind.  With
operations that never raise this layer is the first one (`Reserve_ex_plain`,
`copyAssign_ex_plain`).
-/

namespace VectorModel

/-- Ways in which a call can leave the defined behaviour of the program, or the states this
model describes. -/
inductive Fault where
  | assertion
  | outOfBounds
  | notLive
  | underAllocated
  deriving DecidableEq, Repr

/-- Compile-time properties of the element type: the traits consulted by `if constexpr` and
`sizeof(T)`, which is at least 1. -/
class ElementTraits (T : Type) where
  is_nothrow_move_constructible : Bool
  is_copy_constructible : Bool
  sizeof : Nat
  sizeof_pos : 0 < sizeof

/-- Largest value of `size_t` (64 bits). -/
def SIZE_MAX : Nat := 2 ^ 64 - 1

instance natTraits : ElementTraits Nat := ⟨true, true, 4, by decide⟩

instance intTraits : ElementTraits Int := ⟨true, true, 4, by decide⟩

instance exceptDecEq {ε α : Type} [DecidableEq ε] [DecidableEq α] : DecidableEq (Except ε α)
  | .ok a, .ok b => decidable_of_iff (a = b) ⟨fun h => by rw [h], fun h => by cases h; rfl⟩
  | .error a, .error b => decidable_of_iff (a = b) ⟨fun h => by rw [h], fun h => by cases h; rfl⟩
  | .ok _, .error _ => isFalse (fun h => by cases h)
  | .error _, .ok _ => isFalse (fun h => by cases h)

/-! ## Raw memory primitives (placement new, assignment, destruction, `std::` algorithms) -/

/-- Read the object stored in slot `i` (`*(p + i)` used as an rvalue). -/
def load {T : Type} (buf : List (Option T)) (i : Nat) : Except Fault T :=
  match buf[i]? with
  | none => .error .outOfBounds
  | some none => .error .notLive
  | some (some x) => .ok x

/-- Placement new: `new (p + i) T(x)`. -/
def construct_at {T : Type} (buf : List (Option T)) (i : Nat) (x : T) :
    Except Fault (List (Option T)) :=
  if i < buf.length then .ok (buf.set i (some x)) else .error .outOfBounds

/-- Assignment to an existing object: `*(p + i) = x`. -/
def assign_at {T : Type} (buf : List (Option T)) (i : Nat) (x : T) :
    Except Fault (List (Option T)) :=
  match buf[i]? with
  | none => .error .outOfBounds
  | some none => .error .notLive
  | some (some _) => .ok (buf.set i (some x))

/-- The call `std::destroy_at(p + i)`. -/
def destroy_at {T : Type} (buf : List (Option T)) (i : Nat) : Except Fault (List (Option T)) :=
  match buf[i]? with
  | none => .error .outOfBounds
  | some none => .error .notLive
  | some (some _) => .ok (buf.set i none)

/-- The call `std::destroy_n(p + first, n)`. -/
def destroy_n {T : Type} (buf : List (Option T)) (first : Nat) (n : Nat) :
    Except Fault (List (Option T)) :=
  match n with
  | 0 => .ok buf
  | k + 1 =>
    match destroy_at buf first with
    | .error e => .error e
    | .ok b => destroy_n b (first + 1) k

/-- The call `std::uninitialized_value_construct_n(p + first, n)`; `default` stands for the
value-initialized `T()`. -/
def uninitialized_value_construct_n {T : Type} [Inhabited T] (buf : List (Option T))
    (first : Nat) (n : Nat) : Except Fault (List (Option T)) :=
  match n with
  | 0 => .ok buf
  | k + 1 =>
    match construct_at buf first default with
    | .error e => .error e
    | .ok b => uninitialized_value_construct_n b (first + 1) k

/-- The call `std::uninitialized_copy_n(src + first, n, dst + d_first)`, `src` and `dst` being
two different allocations. -/
def uninitialized_copy_n {T : Type} (src : List (Option T)) (first : Nat) (n : Nat)
    (dst : List (Option T)) (d_first : Nat) : Except Fault (List (Option T)) :=
  match n with
  | 0 => .ok dst
  | k + 1 =>
    match load src first with
    | .error e => .error e
    | .ok x =>
      match construct_at dst d_first x with
      | .error e => .error e
      | .ok d => uninitialized_copy_n src (first + 1) k d (d_first + 1)

/-- The call `std::uninitialized_move_n(src + first, n, dst + d_first)`: each destination
object is move-constructed from the source object, which stays live. -/
def uninitialized_move_n {T : Type} (src : List (Option T)) (first : Nat) (n : Nat)
    (dst : List (Option T)) (d_first : Nat) : Except Fault (List (Option T)) :=
  match n with
  | 0 => .ok dst
  | k + 1 =>
    match load src first with
    | .error e => .error e
    | .ok x =>
      match construct_at dst d_first x with
      | .error e => .error e
      | .ok d => uninitialized_move_n src (first + 1) k d (d_first + 1)

/-- The relocation step written four times in the source as
`if constexpr (is_nothrow_move_constructible_v<T> || !is_copy_constructible_v<T>)
   uninitialized_move_n(...) else uninitialized_copy_n(...)`. -/
def relocate_n {T : Type} [ElementTraits T] (src : List (Option T)) (first : Nat) (n : Nat)
    (dst : List (Option T)) (d_first : Nat) : Except Fault (List (Option T)) :=
  if ElementTraits.is_nothrow_move_constructible T || !ElementTraits.is_copy_constructible T then
    uninitialized_move_n src first n dst d_first
  else
    uninitialized_copy_n src first n dst d_first

/-- The call `std::copy_n(src + first, n, dst + d_first)`: copy-assignment, front to back. -/
def copy_n {T : Type} (src : List (Option T)) (first : Nat) (n : Nat)
    (dst : List (Option T)) (d_first : Nat) : Except Fault (List (Option T)) :=
  match n with
  | 0 => .ok dst
  | k + 1 =>
    match load src first with
    | .error e => .error e
    | .ok x =>
      match assign_at dst d_first x with
      | .error e => .error e
      | .ok d => copy_n src (first + 1) k d (d_first + 1)

/-- The loop of `std::move(first, last, d_first)` inside one allocation: `n` move-assignments,
front to back, each reading the buffer as the previous ones left it. -/
def move_loop {T : Type} (buf : List (Option T)) (first : Nat) (n : Nat) (d_first : Nat) :
    Except Fault (List (Option T)) :=
  match n with
  | 0 => .ok buf
  | k + 1 =>
    match load buf first with
    | .error e => .error e
    | .ok x =>
      match assign_at buf d_first x with
      | .error e => .error e
      | .ok b => move_loop b (first + 1) k (d_first + 1)

/-- The call `std::move(p + first, p + last, p + d_first)`. -/
def move_range {T : Type} (buf : List (Option T)) (first last d_first : Nat) :
    Except Fault (List (Option T)) :=
  if last < first then .error .outOfBounds else move_loop buf first (last - first) d_first

/-- The loop of `std::move_backward(first, last, d_last)` inside one allocation: `n`
move-assignments `*(--d_last) = std::move(*(--last))`, back to front. -/
def move_backward_loop {T : Type} (buf : List (Option T)) (last : Nat) (n : Nat) (d_last : Nat) :
    Except Fault (List (Option T)) :=
  match n with
  | 0 => .ok buf
  | k + 1 =>
    if last = 0 ∨ d_last = 0 then .error .outOfBounds
    else
      match load buf (last - 1) with
      | .error e => .error e
      | .ok x =>
        match assign_at buf (d_last - 1) x with
        | .error e => .error e
        | .ok b => move_backward_loop b (last - 1) k (d_last - 1)

/-- The call `std::move_backward(p + first, p + last, p + d_last)`. -/
def move_backward {T : Type} (buf : List (Option T)) (first last d_last : Nat) :
    Except Fault (List (Option T)) :=
  if last < first then .error .outOfBounds else move_backward_loop buf last (last - first) d_last

/-! ## RawMemory -/

/-- The class `RawMemory<T>`: the owned allocation; `capacity_` is its number of slots. -/
structure RawMemory (T : Type) where
  buffer_ : List (Option T)
  deriving DecidableEq, Repr

namespace RawMemory

/-- `RawMemory() = default`: no allocation, capacity 0. -/
def empty {T : Type} : RawMemory T := ⟨[]⟩

/-- A block of `capacity` raw slots: what `explicit RawMemory(size_t capacity)` builds when
the byte count `capacity * sizeof(T)` does not wrap.  The operations call it directly where
the argument is `size_ * 2` or `other.size_`, the size of a sequence of live elements, whose
bytes already fit in memory; where the argument comes from the caller they go through
`create`. -/
def alloc {T : Type} (capacity : Nat) : RawMemory T := ⟨List.replicate capacity none⟩

/-- `static T* Allocate(size_t n)`: for `n != 0` it asks `operator new` for `n * sizeof(T)`
bytes, the product being taken in `size_t`; the result is the number of whole slots of the
block obtained. -/
def Allocate (T : Type) [ElementTraits T] (n : Nat) : Nat :=
  if n ≠ 0 then (n * ElementTraits.sizeof T) % (SIZE_MAX + 1) / ElementTraits.sizeof T else 0

/-- `explicit RawMemory(size_t capacity)`: `buffer_(Allocate(capacity))`,
`capacity_(capacity)`.  When the byte count wrapped, the block holds fewer slots than the
`capacity_` recorded for it; such an object is not a state of this model and the
construction is reported as `Fault.underAllocated`. -/
def create {T : Type} [ElementTraits T] (capacity : Nat) : Except Fault (RawMemory T) :=
  if Allocate T capacity < capacity then .error .underAllocated else .ok (alloc capacity)

/-- `size_t Capacity() const`. -/
def Capacity {T : Type} (m : RawMemory T) : Nat := m.buffer_.length

/-- `T* operator+(size_t offset)`: `assert(offset <= capacity_)`, then the slot offset. -/
def plus {T : Type} (m : RawMemory T) (offset : Nat) : Except Fault Nat :=
  if offset ≤ m.Capacity then .ok offset else .error .assertion

/-- `T& operator[](size_t index)`: `assert(index < capacity_)`, then the slot. -/
def subscript {T : Type} (m : RawMemory T) (index : Nat) : Except Fault Nat :=
  if index < m.Capacity then .ok index else .error .assertion

/-- `void Swap(RawMemory& other)`: the pair (this, other) after the call. -/
def Swap {T : Type} (m other : RawMemory T) : RawMemory T × RawMemory T := (other, m)

end RawMemory

/-! ## Vector -/

/-- The class `Vector<T>`. -/
structure Vector (T : Type) where
  data_ : RawMemory T
  size_ : Nat
  deriving DecidableEq, Repr

namespace Vector

/-- `Vector() = default`. -/
def empty {T : Type} : Vector T := ⟨RawMemory.empty, 0⟩

/-- `size_t Size() const`. -/
def Size {T : Type} (v : Vector T) : Nat := v.size_

/-- `size_t Capacity() const`. -/
def Capacity {T : Type} (v : Vector T) : Nat := v.data_.Capacity

/-- `T& operator[](size_t index)`: `assert(index < size_)`, then `data_[index]`, read as a value. -/
def subscript {T : Type} (v : Vector T) (index : Nat) : Except Fault T :=
  if index < v.size_ then
    match v.data_.subscript index with
    | .error e => .error e
    | .ok i => load v.data_.buffer_ i
  else .error .assertion

/-- `void Swap(Vector& other)`: the pair (this, other) after the call. -/
def Swap {T : Type} (v other : Vector T) : Vector T × Vector T :=
  let d := v.data_.Swap other.data_
  (⟨d.1, other.size_⟩, ⟨d.2, v.size_⟩)

/-- `~Vector()`: `std::destroy_n(data_.GetAddress(), size_)`; the allocation is then released. -/
def destructor {T : Type} (v : Vector T) : Except Fault Unit :=
  match destroy_n v.data_.buffer_ 0 v.size_ with
  | .error e => .error e
  | .ok _ => .ok ()

/-- `explicit Vector(size_t size)`: `size` value-initialized elements. -/
def ofSize {T : Type} [ElementTraits T] [Inhabited T] (size : Nat) : Except Fault (Vector T) :=
  match (RawMemory.create size : Except Fault (RawMemory T)) with
  | .error e => .error e
  | .ok data =>
    match uninitialized_value_construct_n data.buffer_ 0 size with
    | .error e => .error e
    | .ok b => .ok ⟨⟨b⟩, size⟩

/-- `Vector(Vector&& other)`: the pair (this, other) after the call. -/
def moveConstruct {T : Type} (other : Vector T) : Vector T × Vector T :=
  (empty : Vector T).Swap other

/-- `Vector(const Vector& other)`. -/
def copy {T : Type} (other : Vector T) : Except Fault (Vector T) :=
  let data : RawMemory T := RawMemory.alloc other.size_
  match uninitialized_copy_n other.data_.buffer_ 0 other.Size data.buffer_ 0 with
  | .error e => .error e
  | .ok b => .ok ⟨⟨b⟩, other.size_⟩

/-- `Vector& operator = (Vector& other)`: the pair (this, other) after the call. -/
def copyAssign {T : Type} (v other : Vector T) : Except Fault (Vector T × Vector T) :=
  if other.size_ > v.data_.Capacity then
    match copy other with
    | .error e => .error e
    | .ok tmp =>
      let r := v.Swap tmp
      -- `tmp`, which now owns the old elements of `*this`, goes out of scope
      match r.2.destructor with
      | .error e => .error e
      | .ok _ => .ok (r.1, other)
  else
    let i := if v.size_ < other.size_ then v.size_ else other.size_
    match copy_n other.data_.buffer_ 0 i v.data_.buffer_ 0 with
    | .error e => .error e
    | .ok b =>
      if v.size_ < other.size_ then
        match uninitialized_copy_n other.data_.buffer_ 0 (other.size_ - v.size_) b v.size_ with
        | .error e => .error e
        | .ok b2 => .ok (⟨⟨b2⟩, other.size_⟩, other)
      else if v.size_ > other.size_ then
        match destroy_n b other.size_ (v.size_ - other.size_) with
        | .error e => .error e
        | .ok b2 => .ok (⟨⟨b2⟩, other.size_⟩, other)
      else .ok (⟨⟨b⟩, other.size_⟩, other)

/-- `Vector& operator = (Vector&& other)`: the pair (this, other) after the call. -/
def moveAssign {T : Type} (v other : Vector T) : Vector T × Vector T :=
  v.Swap other

/-- `void Reserve(size_t new_capacit)`. -/
def Reserve {T : Type} [ElementTraits T] (v : Vector T) (new_capacit : Nat) :
    Except Fault (Vector T) :=
  if new_capacit > v.data_.Capacity then
    match (RawMemory.create new_capacit : Except Fault (RawMemory T)) with
    | .error e => .error e
    | .ok data_tmp =>
      match relocate_n v.data_.buffer_ 0 v.size_ data_tmp.buffer_ 0 with
      | .error e => .error e
      | .ok b =>
        match destroy_n v.data_.buffer_ 0 v.size_ with
        | .error e => .error e
        | .ok old => .ok ⟨((⟨old⟩ : RawMemory T).Swap ⟨b⟩).1, v.size_⟩
  else .ok v

/-- `void Resize(size_t new_size)`. -/
def Resize {T : Type} [ElementTraits T] [Inhabited T] (v : Vector T) (new_size : Nat) :
    Except Fault (Vector T) :=
  if v.size_ < new_size then
    match v.Reserve new_size with
    | .error e => .error e
    | .ok w =>
      match uninitialized_value_construct_n w.data_.buffer_ w.size_ (new_size - w.size_) with
      | .error e => .error e
      | .ok b => .ok ⟨⟨b⟩, new_size⟩
  else if v.size_ > new_size then
    match destroy_n v.data_.buffer_ new_size (v.size_ - new_size) with
    | .error e => .error e
    | .ok b => .ok ⟨⟨b⟩, new_size⟩
  else .ok ⟨v.data_, new_size⟩

/-- `T& InsertInVector(Args&& ... args)`: the new state and the slot of the new element. -/
def InsertInVector {T : Type} [ElementTraits T] (v : Vector T) (x : T) :
    Except Fault (Vector T × Nat) :=
  if v.size_ = v.data_.Capacity then
    let capacity_tmp := if v.size_ = 0 then 1 else v.size_ * 2
    let data_tmp : RawMemory T := RawMemory.alloc capacity_tmp
    match data_tmp.plus v.size_ with
    | .error e => .error e
    | .ok elem =>
      match construct_at data_tmp.buffer_ elem x with
      | .error e => .error e
      | .ok b1 =>
        match relocate_n v.data_.buffer_ 0 v.size_ b1 0 with
        | .error e => .error e
        | .ok b2 =>
          match destroy_n v.data_.buffer_ 0 v.size_ with
          | .error e => .error e
          | .ok old => .ok (⟨((⟨old⟩ : RawMemory T).Swap ⟨b2⟩).1, v.size_ + 1⟩, elem)
  else
    match v.data_.plus v.size_ with
    | .error e => .error e
    | .ok elem =>
      match construct_at v.data_.buffer_ elem x with
      | .error e => .error e
      | .ok b => .ok (⟨⟨b⟩, v.size_ + 1⟩, elem)

/-- `T& EmplaceBack(Args&& ... args)`. -/
def EmplaceBack {T : Type} [ElementTraits T] (v : Vector T) (x : T) :
    Except Fault (Vector T × Nat) :=
  v.InsertInVector x

/-- `void PushBack(Args&& ... args)`. -/
def PushBack {T : Type} [ElementTraits T] (v : Vector T) (x : T) : Except Fault (Vector T) :=
  match v.InsertInVector x with
  | .error e => .error e
  | .ok r => .ok r.1

/-- `void PopBack()`. -/
def PopBack {T : Type} (v : Vector T) : Except Fault (Vector T) :=
  if v.size_ > 0 then
    match destroy_at v.data_.buffer_ (v.size_ - 1) with
    | .error e => .error e
    | .ok b => .ok ⟨⟨b⟩, v.size_ - 1⟩
  else .error .assertion

/-- `iterator Emplace(const_iterator pos, Args&&... args)`, with `pos = begin() + pos`:
the new state and the offset of the returned iterator. -/
def Emplace {T : Type} [ElementTraits T] (v : Vector T) (pos : Nat) (x : T) :
    Except Fault (Vector T × Nat) :=
  let result_index := pos
  if v.size_ = result_index then
    match v.EmplaceBack x with
    | .error e => .error e
    | .ok r => .ok (⟨r.1.data_, r.1.size_ + 1⟩, result_index)
  else if v.size_ < v.Capacity then
    let tmp := x
    -- `data_[size_ - 1u]`: for `size_ == 0` the index wraps to SIZE_MAX and the assertion fails
    match (if v.size_ = 0 then .error .assertion else v.data_.subscript (v.size_ - 1)) with
    | .error e => .error e
    | .ok last =>
      match load v.data_.buffer_ last with
      | .error e => .error e
      | .ok y =>
        match v.data_.plus v.size_ with
        | .error e => .error e
        | .ok p =>
          match construct_at v.data_.buffer_ p y with
          | .error e => .error e
          | .ok b1 =>
            match move_backward b1 result_index (v.size_ - 1) v.size_ with
            | .error e => .error e
            | .ok b2 =>
              match (⟨b2⟩ : RawMemory T).subscript result_index with
              | .error e => .error e
              | .ok i =>
                match assign_at b2 i tmp with
                | .error e => .error e
                | .ok b3 => .ok (⟨⟨b3⟩, v.size_ + 1⟩, result_index)
  else
    let data_tmp : RawMemory T := RawMemory.alloc (v.size_ * 2)
    match data_tmp.plus result_index with
    | .error e => .error e
    | .ok p =>
      match construct_at data_tmp.buffer_ p x with
      | .error e => .error e
      | .ok b1 =>
        match relocate_n v.data_.buffer_ 0 result_index b1 0 with
        | .error e => .error e
        | .ok b2 =>
          -- `size_ - result_index` cannot wrap here: for `result_index > size_` the
          -- relocation above has already left the old allocation
          match relocate_n v.data_.buffer_ result_index (v.size_ - result_index) b2
              (result_index + 1) with
          | .error e => .error e
          | .ok b3 =>
            match destroy_n v.data_.buffer_ 0 v.size_ with
            | .error e => .error e
            | .ok old =>
              .ok (⟨((⟨old⟩ : RawMemory T).Swap ⟨b3⟩).1, v.size_ + 1⟩, result_index)

/-- `iterator Insert(const_iterator pos, const T& value)` and its `T&&` overload. -/
def Insert {T : Type} [ElementTraits T] (v : Vector T) (pos : Nat) (value : T) :
    Except Fault (Vector T × Nat) :=
  v.Emplace pos value

/-- `iterator Erase(const_iterator pos)`, with `pos = cbegin() + pos`: the new state and the
offset of the returned iterator. -/
def Erase {T : Type} (v : Vector T) (pos : Nat) : Except Fault (Vector T × Nat) :=
  let i := pos
  match (if i + 1 < v.size_ then move_range v.data_.buffer_ (i + 1) v.size_ i
         else .ok v.data_.buffer_) with
  | .error e => .error e
  | .ok b =>
    match (⟨⟨b⟩, v.size_⟩ : Vector T).PopBack with
    | .error e => .error e
    | .ok w => .ok (w, i)

/-- Offset of `end()` from `begin()`. -/
def endOffset {T : Type} (v : Vector T) : Nat := v.size_

/-- Append the values of a list one by one with `PushBack`. -/
def pushAll {T : Type} [ElementTraits T] (v : Vector T) (xs : List T) : Except Fault (Vector T) :=
  match xs with
  | [] => .ok v
  | x :: rest =>
    match v.PushBack x with
    | .error e => .error e
    | .ok w => pushAll w rest

/-- The Vector `v` holds the sequence `xs`: `Size()` is the length of `xs`, the size does not
exceed `Capacity()`, and `operator[]` reads `xs[i]` at every index `i < Size()`. -/
def Holds {T : Type} (v : Vector T) (xs : List T) : Prop :=
  v.Size = xs.length ∧ v.Size ≤ v.Capacity ∧ ∀ i : Fin xs.length, v.subscript i.val = .ok (xs.get i)

/-- Slot-level reading of `Holds`: the first `xs.length` slots of the allocation are live and
carry the values of `xs`. -/
def Rep {T : Type} (v : Vector T) (xs : List T) : Prop :=
  v.size_ = xs.length ∧ xs.length ≤ v.data_.buffer_.length ∧
    ∀ i, i < xs.length → v.data_.buffer_[i]? = some xs[i]?

instance decidableHolds {T : Type} [DecidableEq T] (v : Vector T) (xs : List T) :
    Decidable (v.Holds xs) := by
  unfold Holds; infer_instance

end Vector

/-! ## Element operations that may raise

The definitions above take the element operations to succeed.  The ones below follow the
same source lines with element constructors and assignments that may let an exception
escape; a call then ends either normally or with the exception leaving it, and in both
cases it leaves a state behind. -/

/-- How a call ends: it returns (`done`) or an exception leaves it (`raised`); `a` is the
state the call leaves behind. -/
inductive Outcome (α : Type) where
  | done (a : α)
  | raised (a : α)
  deriving DecidableEq, Repr

/-- The element operations of `T` as used by the container. -/
structure ElementOps (T : Type) where
  /-- Copy constructor `T(const T&)`: the new object, or `none` when it raises. -/
  copy_construct : T → Option T
  /-- Move constructor `T(T&&)`: the new object (`none` when it raises) and the state in
  which the source object is left. -/
  move_construct : T → Option T × T
  /-- Copy assignment `target = source`: the state of the target, after a normal return
  (`done`) or after the operator raised (`raised`). -/
  copy_assign : T → T → Outcome T

/-- A move-only element type whose move constructor may raise
(`is_copy_constructible_v` and `is_nothrow_move_constructible_v` both false). -/
structure Handle where
  id : Nat
  deriving DecidableEq, Repr

instance handleTraits : ElementTraits Handle := ⟨false, false, 4, by decide⟩

/-- A copyable element type without a non-raising move constructor
(`is_copy_constructible_v` true, `is_nothrow_move_constructible_v` false). -/
structure Record where
  id : Nat
  deriving DecidableEq, Repr

instance recordTraits : ElementTraits Record := ⟨false, true, 4, by decide⟩

/-- Element operations that never raise: a copy or a move gives the value of the source
and leaves the source as it was. -/
def plainOps {T : Type} : ElementOps T where
  copy_construct := fun x => some x
  move_construct := fun x => (some x, x)
  copy_assign := fun _ x => .done x

/-- The call `std::uninitialized_copy_n(src + first, n, dst + d_first)` with a copy
constructor that may raise: when it does, the objects already constructed in `dst` are
destroyed and the exception leaves the call. -/
def uninitialized_copy_n_ex {T : Type} (ops : ElementOps T) (src : List (Option T))
    (first : Nat) (n : Nat) (dst : List (Option T)) (d_first : Nat) :
    Except Fault (Outcome (List (Option T))) :=
  match n with
  | 0 => .ok (.done dst)
  | k + 1 =>
    match load src first with
    | .error e => .error e
    | .ok x =>
      match ops.copy_construct x with
      | none => .ok (.raised dst)
      | some y =>
        match construct_at dst d_first y with
        | .error e => .error e
        | .ok d =>
          match uninitialized_copy_n_ex ops src (first + 1) k d (d_first + 1) with
          | .error e => .error e
          | .ok (.done r) => .ok (.done r)
          | .ok (.raised r) =>
            match destroy_at r d_first with
            | .error e => .error e
            | .ok r2 => .ok (.raised r2)

/-- The call `std::uninitialized_move_n(src + first, n, dst + d_first)` with a move
constructor that may raise: the state is the pair (`src`, `dst`); every move leaves its
source object in the moved-from state, and when a move raises the objects already
constructed in `dst` are destroyed. -/
def uninitialized_move_n_ex {T : Type} (ops : ElementOps T) (src : List (Option T))
    (first : Nat) (n : Nat) (dst : List (Option T)) (d_first : Nat) :
    Except Fault (Outcome (List (Option T) × List (Option T))) :=
  match n with
  | 0 => .ok (.done (src, dst))
  | k + 1 =>
    match load src first with
    | .error e => .error e
    | .ok x =>
      match ops.move_construct x with
      | (none, x2) => .ok (.raised (src.set first (some x2), dst))
      | (some y, x2) =>
        match construct_at dst d_first y with
        | .error e => .error e
        | .ok d =>
          match uninitialized_move_n_ex ops (src.set first (some x2)) (first + 1) k d
              (d_first + 1) with
          | .error e => .error e
          | .ok (.done r) => .ok (.done r)
          | .ok (.raised r) =>
            match destroy_at r.2 d_first with
            | .error e => .error e
            | .ok r2 => .ok (.raised (r.1, r2))

/-- The relocation step `if constexpr (...) uninitialized_move_n(...) else
uninitialized_copy_n(...)` with element operations that may raise; the state is the pair
(`src`, `dst`). -/
def relocate_n_ex {T : Type} [ElementTraits T] (ops : ElementOps T) (src : List (Option T))
    (first : Nat) (n : Nat) (dst : List (Option T)) (d_first : Nat) :
    Except Fault (Outcome (List (Option T) × List (Option T))) :=
  if ElementTraits.is_nothrow_move_constructible T || !ElementTraits.is_copy_constructible T then
    uninitialized_move_n_ex ops src first n dst d_first
  else
    match uninitialized_copy_n_ex ops src first n dst d_first with
    | .error e => .error e
    | .ok (.done r) => .ok (.done (src, r))
    | .ok (.raised r) => .ok (.raised (src, r))

/-- The call `std::copy_n(src + first, n, dst + d_first)` with a copy assignment that may
raise: the elements assigned before the failure keep their new values. -/
def copy_n_ex {T : Type} (ops : ElementOps T) (src : List (Option T)) (first : Nat) (n : Nat)
    (dst : List (Option T)) (d_first : Nat) : Except Fault (Outcome (List (Option T))) :=
  match n with
  | 0 => .ok (.done dst)
  | k + 1 =>
    match load src first with
    | .error e => .error e
    | .ok x =>
      match load dst d_first with
      | .error e => .error e
      | .ok t =>
        match ops.copy_assign t x with
        | .raised t2 => .ok (.raised (dst.set d_first (some t2)))
        | .done t2 => copy_n_ex ops src (first + 1) k (dst.set d_first (some t2)) (d_first + 1)

namespace Vector

/-- `void Reserve(size_t new_capacit)` with element operations that may raise: the state
of `*this` when the call ends.  When the relocation raises, `data_tmp` is released during
unwinding and `data_`, `size_` are as the relocation left them. -/
def Reserve_ex {T : Type} [ElementTraits T] (ops : ElementOps T) (v : Vector T)
    (new_capacit : Nat) : Except Fault (Outcome (Vector T)) :=
  if new_capacit > v.data_.Capacity then
    match (RawMemory.create new_capacit : Except Fault (RawMemory T)) with
    | .error e => .error e
    | .ok data_tmp =>
      match relocate_n_ex ops v.data_.buffer_ 0 v.size_ data_tmp.buffer_ 0 with
      | .error e => .error e
      | .ok (.raised r) => .ok (.raised ⟨⟨r.1⟩, v.size_⟩)
      | .ok (.done r) =>
        match destroy_n r.1 0 v.size_ with
        | .error e => .error e
        | .ok old => .ok (.done ⟨((⟨old⟩ : RawMemory T).Swap ⟨r.2⟩).1, v.size_⟩)
  else .ok (.done v)

/-- `Vector(const Vector& other)` with a copy constructor that may raise: the new Vector,
or `none` when the exception leaves the constructor (no object is created). -/
def copy_ex {T : Type} (ops : ElementOps T) (other : Vector T) :
    Except Fault (Option (Vector T)) :=
  let data : RawMemory T := RawMemory.alloc other.size_
  match uninitialized_copy_n_ex ops other.data_.buffer_ 0 other.Size data.buffer_ 0 with
  | .error e => .error e
  | .ok (.raised _) => .ok none
  | .ok (.done b) => .ok (some ⟨⟨b⟩, other.size_⟩)

/-- `Vector& operator = (Vector& other)` with element copies that may raise: the state of
`*this` when the call ends. -/
def copyAssign_ex {T : Type} (ops : ElementOps T) (v other : Vector T) :
    Except Fault (Outcome (Vector T)) :=
  if other.size_ > v.data_.Capacity then
    match copy_ex ops other with
    | .error e => .error e
    | .ok none => .ok (.raised v)
    | .ok (some tmp) =>
      let r := v.Swap tmp
      match r.2.destructor with
      | .error e => .error e
      | .ok _ => .ok (.done r.1)
  else
    let i := if v.size_ < other.size_ then v.size_ else other.size_
    match copy_n_ex ops other.data_.buffer_ 0 i v.data_.buffer_ 0 with
    | .error e => .error e
    | .ok (.raised b) => .ok (.raised ⟨⟨b⟩, v.size_⟩)
    | .ok (.done b) =>
      if v.size_ < other.size_ then
        match uninitialized_copy_n_ex ops other.data_.buffer_ 0 (other.size_ - v.size_) b
            v.size_ with
        | .error e => .error e
        | .ok (.raised b2) => .ok (.raised ⟨⟨b2⟩, v.size_⟩)
        | .ok (.done b2) => .ok (.done ⟨⟨b2⟩, other.size_⟩)
      else if v.size_ > other.size_ then
        match destroy_n b other.size_ (v.size_ - other.size_) with
        | .error e => .error e
        | .ok b2 => .ok (.done ⟨⟨b2⟩, other.size_⟩)
      else .ok (.done ⟨⟨b⟩, other.size_⟩)

end Vector

/-! ## Lemmas on the raw memory primitives -/

theorem Allocate_of_fits {T : Type} [ElementTraits T] (n : Nat)
    (h : n * ElementTraits.sizeof T ≤ SIZE_MAX) : RawMemory.Allocate T n = n := by
  unfold RawMemory.Allocate
  by_cases h0 : n = 0
  · simp [h0]
  · rw [if_pos h0, Nat.mod_eq_of_lt (Nat.lt_succ_of_le h),
      Nat.mul_div_cancel n (ElementTraits.sizeof_pos (T := T))]

theorem create_of_fits {T : Type} [ElementTraits T] (n : Nat)
    (h : n * ElementTraits.sizeof T ≤ SIZE_MAX) :
    (RawMemory.create n : Except Fault (RawMemory T)) = .ok (RawMemory.alloc n) := by
  unfold RawMemory.create
  rw [Allocate_of_fits n h, if_neg (Nat.lt_irrefl n)]

theorem load_of_live {T : Type} {buf : List (Option T)} {i : Nat} {x : T}
    (h : buf[i]? = some (some x)) : load buf i = .ok x := by
  simp [load, h]

theorem assign_at_of_live {T : Type} {buf : List (Option T)} {i : Nat} {y : T} (x : T)
    (h : buf[i]? = some (some y)) : assign_at buf i x = .ok (buf.set i (some x)) := by
  simp [assign_at, h]

theorem destroy_at_of_live {T : Type} {buf : List (Option T)} {i : Nat} {y : T}
    (h : buf[i]? = some (some y)) : destroy_at buf i = .ok (buf.set i none) := by
  simp [destroy_at, h]

theorem construct_at_of_lt {T : Type} {buf : List (Option T)} {i : Nat} (x : T)
    (h : i < buf.length) : construct_at buf i x = .ok (buf.set i (some x)) := by
  simp [construct_at, h]

theorem uninitialized_copy_n_spec {T : Type} (src : List (Option T)) :
    ∀ (n first : Nat) (dst : List (Option T)) (d_first : Nat),
      (∀ k, k < n → ∃ x, src[first + k]? = some (some x)) →
      d_first + n ≤ dst.length →
      ∃ r, uninitialized_copy_n src first n dst d_first = .ok r ∧ r.length = dst.length ∧
        ∀ j, r[j]? = if d_first ≤ j ∧ j < d_first + n then src[first + (j - d_first)]?
                     else dst[j]? := by
  intro n
  induction n with
  | zero =>
    intro first dst d_first _ _
    refine ⟨dst, rfl, rfl, fun j => ?_⟩
    have : ¬ (d_first ≤ j ∧ j < d_first + 0) := by omega
    rw [if_neg this]
  | succ n ih =>
    intro first dst d_first hsrc hlen
    obtain ⟨x, hx⟩ := hsrc 0 (by omega)
    rw [Nat.add_zero] at hx
    have hd : d_first < dst.length := by omega
    obtain ⟨r, hr, hrlen, hrget⟩ := ih (first + 1) (dst.set d_first (some x)) (d_first + 1)
      (fun k hk => by
        obtain ⟨y, hy⟩ := hsrc (k + 1) (by omega)
        exact ⟨y, by rw [← hy]; congr 1; omega⟩)
      (by simp; omega)
    refine ⟨r, ?_, by simpa using hrlen, fun j => ?_⟩
    · simp only [uninitialized_copy_n, load_of_live hx, construct_at_of_lt x hd]
      exact hr
    · rw [hrget j]
      by_cases h1 : j = d_first
      · subst h1
        have : ¬ (j + 1 ≤ j ∧ j < j + 1 + n) := by omega
        rw [if_neg this, if_pos (by omega), List.getElem?_set_self hd, Nat.sub_self, Nat.add_zero, hx]
      · by_cases h2 : d_first + 1 ≤ j ∧ j < d_first + 1 + n
        · have h3 : d_first ≤ j ∧ j < d_first + (n + 1) := by omega
          rw [if_pos h2, if_pos h3]
          congr 1; omega
        · have h3 : ¬ (d_first ≤ j ∧ j < d_first + (n + 1)) := by omega
          rw [if_neg h2, if_neg h3, List.getElem?_set_ne (Ne.symm h1)]


theorem uninitialized_move_n_eq {T : Type} (src : List (Option T)) :
    ∀ (n first : Nat) (dst : List (Option T)) (d_first : Nat),
      uninitialized_move_n src first n dst d_first = uninitialized_copy_n src first n dst d_first := by
  intro n
  induction n with
  | zero => intro first dst d_first; rfl
  | succ n ih =>
    intro first dst d_first
    simp only [uninitialized_move_n, uninitialized_copy_n, ih]

theorem relocate_n_eq {T : Type} [ElementTraits T] (src : List (Option T)) (first n : Nat)
    (dst : List (Option T)) (d_first : Nat) :
    relocate_n src first n dst d_first = uninitialized_copy_n src first n dst d_first := by
  unfold relocate_n
  split
  · exact uninitialized_move_n_eq src n first dst d_first
  · rfl

theorem relocate_n_spec {T : Type} [ElementTraits T] (src : List (Option T))
    (n first : Nat) (dst : List (Option T)) (d_first : Nat)
    (hsrc : ∀ k, k < n → ∃ x, src[first + k]? = some (some x))
    (hlen : d_first + n ≤ dst.length) :
    ∃ r, relocate_n src first n dst d_first = .ok r ∧ r.length = dst.length ∧
      ∀ j, r[j]? = if d_first ≤ j ∧ j < d_first + n then src[first + (j - d_first)]?
                   else dst[j]? := by
  rw [relocate_n_eq]
  exact uninitialized_copy_n_spec src n first dst d_first hsrc hlen

theorem copy_n_spec {T : Type} (src : List (Option T)) :
    ∀ (n first : Nat) (dst : List (Option T)) (d_first : Nat),
      (∀ k, k < n → ∃ x, src[first + k]? = some (some x)) →
      (∀ k, k < n → ∃ y, dst[d_first + k]? = some (some y)) →
      ∃ r, copy_n src first n dst d_first = .ok r ∧ r.length = dst.length ∧
        ∀ j, r[j]? = if d_first ≤ j ∧ j < d_first + n then src[first + (j - d_first)]?
                     else dst[j]? := by
  intro n
  induction n with
  | zero =>
    intro first dst d_first _ _
    refine ⟨dst, rfl, rfl, fun j => ?_⟩
    have : ¬ (d_first ≤ j ∧ j < d_first + 0) := by omega
    rw [if_neg this]
  | succ n ih =>
    intro first dst d_first hsrc hdst
    obtain ⟨x, hx⟩ := hsrc 0 (by omega)
    obtain ⟨y, hy⟩ := hdst 0 (by omega)
    rw [Nat.add_zero] at hx hy
    have hd : d_first < dst.length := by
      by_contra hc
      rw [List.getElem?_eq_none (by omega)] at hy
      cases hy
    obtain ⟨r, hr, hrlen, hrget⟩ := ih (first + 1) (dst.set d_first (some x)) (d_first + 1)
      (fun k hk => by
        obtain ⟨z, hz⟩ := hsrc (k + 1) (by omega)
        exact ⟨z, by rw [← hz]; congr 1; omega⟩)
      (fun k hk => by
        obtain ⟨z, hz⟩ := hdst (k + 1) (by omega)
        refine ⟨z, ?_⟩
        rw [List.getElem?_set_ne (by omega), ← hz]
        congr 1; omega)
    refine ⟨r, ?_, by simpa using hrlen, fun j => ?_⟩
    · simp only [copy_n, load_of_live hx, assign_at_of_live x hy]
      exact hr
    · rw [hrget j]
      by_cases h1 : j = d_first
      · subst h1
        have : ¬ (j + 1 ≤ j ∧ j < j + 1 + n) := by omega
        rw [if_neg this, if_pos (by omega), List.getElem?_set_self hd, Nat.sub_self,
          Nat.add_zero, hx]
      · by_cases h2 : d_first + 1 ≤ j ∧ j < d_first + 1 + n
        · have h3 : d_first ≤ j ∧ j < d_first + (n + 1) := by omega
          rw [if_pos h2, if_pos h3]
          congr 1; omega
        · have h3 : ¬ (d_first ≤ j ∧ j < d_first + (n + 1)) := by omega
          rw [if_neg h2, if_neg h3, List.getElem?_set_ne (Ne.symm h1)]

theorem destroy_n_spec {T : Type} :
    ∀ (n first : Nat) (buf : List (Option T)),
      (∀ k, k < n → ∃ x, buf[first + k]? = some (some x)) →
      ∃ r, destroy_n buf first n = .ok r ∧ r.length = buf.length ∧
        ∀ j, r[j]? = if first ≤ j ∧ j < first + n then some none else buf[j]? := by
  intro n
  induction n with
  | zero =>
    intro first buf _
    refine ⟨buf, rfl, rfl, fun j => ?_⟩
    have : ¬ (first ≤ j ∧ j < first + 0) := by omega
    rw [if_neg this]
  | succ n ih =>
    intro first buf hlive
    obtain ⟨x, hx⟩ := hlive 0 (by omega)
    rw [Nat.add_zero] at hx
    have hd : first < buf.length := by
      by_contra hc
      rw [List.getElem?_eq_none (by omega)] at hx
      cases hx
    obtain ⟨r, hr, hrlen, hrget⟩ := ih (first + 1) (buf.set first none)
      (fun k hk => by
        obtain ⟨z, hz⟩ := hlive (k + 1) (by omega)
        refine ⟨z, ?_⟩
        rw [List.getElem?_set_ne (by omega), ← hz]
        congr 1; omega)
    refine ⟨r, ?_, by simpa using hrlen, fun j => ?_⟩
    · simp only [destroy_n, destroy_at_of_live hx]
      exact hr
    · rw [hrget j]
      by_cases h1 : j = first
      · subst h1
        have : ¬ (j + 1 ≤ j ∧ j < j + 1 + n) := by omega
        rw [if_neg this, if_pos (by omega), List.getElem?_set_self hd]
      · by_cases h2 : first + 1 ≤ j ∧ j < first + 1 + n
        · have h3 : first ≤ j ∧ j < first + (n + 1) := by omega
          rw [if_pos h2, if_pos h3]
        · have h3 : ¬ (first ≤ j ∧ j < first + (n + 1)) := by omega
          rw [if_neg h2, if_neg h3, List.getElem?_set_ne (Ne.symm h1)]

theorem move_loop_spec {T : Type} :
    ∀ (n d : Nat) (buf : List (Option T)),
      (∀ k, k ≤ n → ∃ x, buf[d + k]? = some (some x)) →
      ∃ r, move_loop buf (d + 1) n d = .ok r ∧ r.length = buf.length ∧
        ∀ j, r[j]? = if d ≤ j ∧ j < d + n then buf[j + 1]? else buf[j]? := by
  intro n
  induction n with
  | zero =>
    intro d buf _
    refine ⟨buf, rfl, rfl, fun j => ?_⟩
    have : ¬ (d ≤ j ∧ j < d + 0) := by omega
    rw [if_neg this]
  | succ n ih =>
    intro d buf hlive
    obtain ⟨x0, hx0⟩ := hlive 0 (by omega)
    obtain ⟨x1, hx1⟩ := hlive 1 (by omega)
    rw [Nat.add_zero] at hx0
    have hd : d < buf.length := by
      by_contra hc
      rw [List.getElem?_eq_none (by omega)] at hx0
      cases hx0
    obtain ⟨r, hr, hrlen, hrget⟩ := ih (d + 1) (buf.set d (some x1))
      (fun k hk => by
        obtain ⟨z, hz⟩ := hlive (k + 1) (by omega)
        refine ⟨z, ?_⟩
        rw [List.getElem?_set_ne (by omega), ← hz]
        congr 1; omega)
    refine ⟨r, ?_, by simpa using hrlen, fun j => ?_⟩
    · simp only [move_loop, load_of_live hx1, assign_at_of_live x1 hx0]
      exact hr
    · rw [hrget j]
      by_cases h1 : j = d
      · subst h1
        have : ¬ (j + 1 ≤ j ∧ j < j + 1 + n) := by omega
        rw [if_neg this, if_pos (by omega), List.getElem?_set_self hd, hx1]
      · by_cases h2 : d + 1 ≤ j ∧ j < d + 1 + n
        · have h3 : d ≤ j ∧ j < d + (n + 1) := by omega
          rw [if_pos h2, if_pos h3, List.getElem?_set_ne (by omega)]
        · have h3 : ¬ (d ≤ j ∧ j < d + (n + 1)) := by omega
          rw [if_neg h2, if_neg h3, List.getElem?_set_ne (Ne.symm h1)]

theorem move_backward_loop_spec {T : Type} :
    ∀ (n l : Nat) (buf : List (Option T)),
      n ≤ l →
      (∀ k, k ≤ n → ∃ x, buf[l - k]? = some (some x)) →
      ∃ r, move_backward_loop buf l n (l + 1) = .ok r ∧ r.length = buf.length ∧
        ∀ j, r[j]? = if l - n < j ∧ j ≤ l then buf[j - 1]? else buf[j]? := by
  intro n
  induction n with
  | zero =>
    intro l buf _ _
    refine ⟨buf, rfl, rfl, fun j => ?_⟩
    have : ¬ (l - 0 < j ∧ j ≤ l) := by omega
    rw [if_neg this]
  | succ n ih =>
    intro l buf hn hlive
    obtain ⟨x0, hx0⟩ := hlive 0 (by omega)
    obtain ⟨x1, hx1⟩ := hlive 1 (by omega)
    rw [Nat.sub_zero] at hx0
    have hd : l < buf.length := by
      by_contra hc
      rw [List.getElem?_eq_none (by omega)] at hx0
      cases hx0
    obtain ⟨r, hr, hrlen, hrget⟩ := ih (l - 1) (buf.set l (some x1)) (by omega)
      (fun k hk => by
        obtain ⟨z, hz⟩ := hlive (k + 1) (by omega)
        refine ⟨z, ?_⟩
        rw [List.getElem?_set_ne (by omega), ← hz]
        congr 1; omega)
    have hl : l - 1 + 1 = l := by omega
    rw [hl] at hr
    refine ⟨r, ?_, by simpa using hrlen, fun j => ?_⟩
    · have hne : ¬ (l = 0 ∨ l + 1 = 0) := by omega
      simp only [move_backward_loop, if_neg hne, load_of_live hx1, Nat.add_sub_cancel,
        assign_at_of_live x1 hx0]
      exact hr
    · rw [hrget j]
      by_cases h1 : j = l
      · subst h1
        have : ¬ (j - 1 - n < j ∧ j ≤ j - 1) := by omega
        rw [if_neg this, if_pos (by omega), List.getElem?_set_self hd, hx1]
      · by_cases h2 : l - 1 - n < j ∧ j ≤ l - 1
        · have h3 : l - (n + 1) < j ∧ j ≤ l := by omega
          rw [if_pos h2, if_pos h3, List.getElem?_set_ne (by omega)]
        · have h3 : ¬ (l - (n + 1) < j ∧ j ≤ l) := by omega
          rw [if_neg h2, if_neg h3, List.getElem?_set_ne (Ne.symm h1)]


/-! ## The slot-level view of a Vector -/

theorem load_eq_ok_iff {T : Type} (buf : List (Option T)) (i : Nat) (x : T) :
    load buf i = .ok x ↔ buf[i]? = some (some x) := by
  unfold load
  constructor
  · intro h
    split at h
    · cases h
    · cases h
    · rename_i y hy
      cases h
      exact hy
  · intro h
    simp [h]

theorem rep_live {T : Type} {v : Vector T} {xs : List T} (h : v.Rep xs) (i : Nat)
    (hi : i < xs.length) : ∃ x, v.data_.buffer_[i]? = some (some x) := by
  refine ⟨xs[i], ?_⟩
  rw [h.2.2 i hi, List.getElem?_eq_getElem hi]

theorem holds_iff_rep {T : Type} (v : Vector T) (xs : List T) : v.Holds xs ↔ v.Rep xs := by
  unfold Vector.Holds Vector.Rep Vector.Size Vector.Capacity RawMemory.Capacity
  constructor
  · rintro ⟨h1, h2, h3⟩
    refine ⟨h1, by omega, fun i hi => ?_⟩
    have h := h3 ⟨i, hi⟩
    have hc : i < v.data_.Capacity := by unfold RawMemory.Capacity; omega
    simp only [Vector.subscript, RawMemory.subscript, if_pos (show i < v.size_ by omega),
      if_pos hc] at h
    rw [(load_eq_ok_iff _ _ _).1 h, List.getElem?_eq_getElem hi]
    rfl
  · rintro ⟨h1, h2, h3⟩
    refine ⟨h1, by omega, fun i => ?_⟩
    have hc : i.val < v.data_.Capacity := by unfold RawMemory.Capacity; omega
    simp only [Vector.subscript, RawMemory.subscript, if_pos (show i.val < v.size_ by omega),
      if_pos hc]
    rw [load_eq_ok_iff, h3 i.val i.isLt, List.getElem?_eq_getElem i.isLt]
    rfl

/-! ## The operations on the slot-level view -/

theorem rep_slot {T : Type} {v : Vector T} {xs : List T} (h : v.Rep xs) (k : Nat)
    (hk : k < v.size_) : ∃ x, v.data_.buffer_[0 + k]? = some (some x) := by
  rw [Nat.zero_add]
  exact rep_live h k (by rw [← h.1]; exact hk)

theorem InsertInVector_rep {T : Type} [ElementTraits T] (v : Vector T) (xs : List T) (x : T)
    (h : v.Rep xs) :
    ∃ w, v.InsertInVector x = .ok (w, xs.length) ∧ w.Rep (xs ++ [x]) ∧
      w.Capacity = if v.Size = v.Capacity then (if v.Size = 0 then 1 else v.Size * 2)
                   else v.Capacity := by
  have hslot := rep_slot h
  obtain ⟨hs, hcap, hget⟩ := h
  rw [← hs]
  by_cases hfull : v.size_ = v.data_.buffer_.length
  · -- reallocating branch
    obtain ⟨c, hcdef⟩ : ∃ c, c = (if v.size_ = 0 then 1 else v.size_ * 2) := ⟨_, rfl⟩
    have hc : v.size_ < c := by rw [hcdef]; split <;> omega
    have hb1 : v.size_ < (List.replicate c (none : Option T)).length := by simpa using hc
    obtain ⟨b2, hb2, hb2len, hb2get⟩ := relocate_n_spec v.data_.buffer_ v.size_ 0
      ((List.replicate c (none : Option T)).set v.size_ (some x)) 0 hslot (by simp; omega)
    obtain ⟨old, hold, -, -⟩ := destroy_n_spec v.size_ 0 v.data_.buffer_ hslot
    refine ⟨⟨⟨b2⟩, v.size_ + 1⟩, ?_, ⟨by simp [hs], ?_, ?_⟩, ?_⟩
    · simp only [Vector.InsertInVector, if_pos hfull, ← hcdef, RawMemory.alloc, RawMemory.plus,
        RawMemory.Capacity, List.length_replicate, if_pos (Nat.le_of_lt hc),
        construct_at_of_lt x hb1, hb2, hold, RawMemory.Swap]
    · simp only [hb2len, List.length_set, List.length_replicate, List.length_append,
        List.length_singleton]
      omega
    · intro i hi
      rw [hb2get i]
      simp only [List.length_append, List.length_singleton] at hi
      by_cases hlt : i < xs.length
      · rw [if_pos (by omega), Nat.zero_add, Nat.sub_zero, hget i hlt,
          List.getElem?_append_left hlt]
      · have hi' : i = xs.length := by omega
        subst hi'
        rw [if_neg (by omega), ← hs, List.getElem?_set_self hb1, hs,
          List.getElem?_append_right (Nat.le_refl _)]
        simp
    · rw [if_pos (show v.Size = v.Capacity from hfull)]
      show b2.length = _
      rw [hb2len, List.length_set, List.length_replicate, hcdef]
      rfl
  · have hlt : v.size_ < v.data_.buffer_.length := by omega
    refine ⟨⟨⟨v.data_.buffer_.set v.size_ (some x)⟩, v.size_ + 1⟩, ?_, ⟨by simp [hs], ?_, ?_⟩, ?_⟩
    · simp only [Vector.InsertInVector, if_neg hfull, RawMemory.plus, RawMemory.Capacity,
        if_pos (Nat.le_of_lt hlt), construct_at_of_lt x hlt]
    · simp only [List.length_set, List.length_append, List.length_singleton]
      omega
    · intro i hi
      simp only [List.length_append, List.length_singleton] at hi
      by_cases hil : i < xs.length
      · rw [List.getElem?_set_ne (by omega), hget i hil, List.getElem?_append_left hil]
      · have hi' : i = xs.length := by omega
        subst hi'
        rw [← hs, List.getElem?_set_self hlt, hs, List.getElem?_append_right (Nat.le_refl _)]
        simp
    · rw [if_neg (show ¬ v.Size = v.Capacity from hfull)]
      show (v.data_.buffer_.set v.size_ (some x)).length = _
      rw [List.length_set]
      rfl

theorem PushBack_rep {T : Type} [ElementTraits T] (v : Vector T) (xs : List T) (x : T)
    (h : v.Rep xs) :
    ∃ w, v.PushBack x = .ok w ∧ w.Rep (xs ++ [x]) ∧
      w.Capacity = if v.Size = v.Capacity then (if v.Size = 0 then 1 else v.Size * 2)
                   else v.Capacity := by
  obtain ⟨w, hw, hrep, hcap⟩ := InsertInVector_rep v xs x h
  exact ⟨w, by simp only [Vector.PushBack, hw], hrep, hcap⟩

theorem pushAll_rep {T : Type} [ElementTraits T] (ys : List T) :
    ∀ (v : Vector T) (xs : List T), v.Rep xs →
      ∃ w, v.pushAll ys = .ok w ∧ w.Rep (xs ++ ys) := by
  induction ys with
  | nil =>
    intro v xs h
    exact ⟨v, rfl, by simpa using h⟩
  | cons y ys ih =>
    intro v xs h
    obtain ⟨w, hw, hrep, -⟩ := PushBack_rep v xs y h
    obtain ⟨u, hu, hurep⟩ := ih w (xs ++ [y]) hrep
    refine ⟨u, ?_, by simpa using hurep⟩
    simp only [Vector.pushAll, hw]
    exact hu

theorem empty_rep {T : Type} : (Vector.empty : Vector T).Rep [] := by
  refine ⟨rfl, Nat.le_refl _, fun i hi => ?_⟩
  simp at hi

/-- Capacity reached after `k` appends to an empty Vector: none for `k = 0`, otherwise a power
of two that is at least `k` and less than `2 * k`. -/
theorem pushAll_capacity {T : Type} [ElementTraits T] (ys : List T) :
    ∀ (v : Vector T) (xs : List T), v.Rep xs →
      ((xs.length = 0 → v.Capacity = 0) ∧
        (0 < xs.length → ∃ m, v.Capacity = 2 ^ m ∧ xs.length ≤ 2 ^ m ∧ 2 ^ m < 2 * xs.length)) →
      ∃ w, v.pushAll ys = .ok w ∧
        ((xs ++ ys).length = 0 → w.Capacity = 0) ∧
        (0 < (xs ++ ys).length →
          ∃ m, w.Capacity = 2 ^ m ∧ (xs ++ ys).length ≤ 2 ^ m ∧ 2 ^ m < 2 * (xs ++ ys).length) := by
  induction ys with
  | nil =>
    intro v xs _ hg
    exact ⟨v, rfl, by simpa using hg.1, by simpa using hg.2⟩
  | cons y ys ih =>
    intro v xs h hg
    obtain ⟨w, hw, hrep, hcap⟩ := PushBack_rep v xs y h
    have hsz : v.Size = xs.length := h.1
    rw [hsz] at hcap
    have hg' : ((xs ++ [y]).length = 0 → w.Capacity = 0) ∧
        (0 < (xs ++ [y]).length →
          ∃ m, w.Capacity = 2 ^ m ∧ (xs ++ [y]).length ≤ 2 ^ m ∧ 2 ^ m < 2 * (xs ++ [y]).length) := by
      refine ⟨fun h0 => by simp at h0, fun _ => ?_⟩
      simp only [List.length_append, List.length_singleton]
      by_cases hz : xs.length = 0
      · rw [hg.1 hz, if_pos hz, if_pos hz] at hcap
        exact ⟨0, by rw [hcap]; rfl, by omega, by omega⟩
      · obtain ⟨m, hm1, hm2, hm3⟩ := hg.2 (by omega)
        by_cases hfull : xs.length = v.Capacity
        · rw [if_pos hfull, if_neg hz] at hcap
          refine ⟨m + 1, ?_, ?_, ?_⟩
          · rw [hcap, hfull, hm1, pow_succ]
          · rw [pow_succ]; omega
          · rw [pow_succ]; omega
        · rw [if_neg hfull] at hcap
          refine ⟨m, by rw [hcap, hm1], ?_, by omega⟩
          have : xs.length ≤ v.Capacity := h.2.1
          omega
    obtain ⟨u, hu, hu1, hu2⟩ := ih w (xs ++ [y]) hrep hg'
    refine ⟨u, ?_, by simp, by simpa using hu2⟩
    simp only [Vector.pushAll, hw]
    exact hu

/-- C1: appending the values `x_0 .. x_{n-1}` one by one to a default-constructed Vector
succeeds and yields `Size() == n` and `operator[](i) == x_i` for every `i < n`. -/
theorem pushBack_in_order {T : Type} [ElementTraits T] (xs : List T) :
    ∃ v, (Vector.empty : Vector T).pushAll xs = .ok v ∧ v.Size = xs.length ∧
      ∀ i : Fin xs.length, v.subscript i.val = .ok (xs.get i) := by
  obtain ⟨v, hv, hrep⟩ := pushAll_rep xs Vector.empty [] empty_rep
  rw [List.nil_append] at hrep
  have hh := (holds_iff_rep v xs).2 hrep
  exact ⟨v, hv, hh.1, hh.2.2⟩

/-- C7: after `k` appends to a default-constructed Vector the capacity is 0 for `k = 0` and the
smallest power of two that is at least `k` for `k >= 1`; one more append changes the capacity
exactly when the size has reached the capacity. -/
theorem growth_doubling {T : Type} [ElementTraits T] (xs : List T) :
    ∃ v, (Vector.empty : Vector T).pushAll xs = .ok v ∧ v.Size = xs.length ∧
      (xs.length = 0 → v.Capacity = 0) ∧
      (0 < xs.length →
        ∃ m, v.Capacity = 2 ^ m ∧ xs.length ≤ 2 ^ m ∧ ∀ j, xs.length ≤ 2 ^ j → m ≤ j) ∧
      ∀ x, ∃ w, v.PushBack x = .ok w ∧ (w.Capacity ≠ v.Capacity ↔ v.Size = v.Capacity) := by
  obtain ⟨v, hv, hrep⟩ := pushAll_rep xs Vector.empty [] empty_rep
  obtain ⟨v', hv', hc0, hc1⟩ := pushAll_capacity xs (Vector.empty : Vector T) [] empty_rep
    ⟨fun _ => rfl, fun h => by simp at h⟩
  rw [hv] at hv'
  cases hv'
  rw [List.nil_append] at hrep hc0 hc1
  refine ⟨v, hv, hrep.1, hc0, fun hpos => ?_, fun x => ?_⟩
  · obtain ⟨m, hm1, hm2, hm3⟩ := hc1 hpos
    refine ⟨m, hm1, hm2, fun j hj => ?_⟩
    by_contra hlt
    have hle : 2 ^ (j + 1) ≤ 2 ^ m := Nat.pow_le_pow_right (by omega) (by omega)
    rw [pow_succ] at hle
    omega
  · obtain ⟨w, hw, -, hcap⟩ := PushBack_rep v xs x hrep
    refine ⟨w, hw, ?_⟩
    have hle : v.Size ≤ v.Capacity := ((holds_iff_rep v xs).2 hrep).2.1
    by_cases hfull : v.Size = v.Capacity
    · rw [if_pos hfull] at hcap
      have : w.Capacity ≠ v.Capacity := by
        rw [hcap]; split <;> omega
      exact ⟨fun _ => hfull, fun _ => this⟩
    · rw [if_neg hfull] at hcap
      exact ⟨fun h => absurd hcap h, fun h => absurd h hfull⟩

theorem Reserve_rep {T : Type} [ElementTraits T] (v : Vector T) (xs : List T) (n : Nat)
    (h : v.Rep xs) (hfit : n ≤ v.Capacity ∨ n * ElementTraits.sizeof T ≤ SIZE_MAX) :
    ∃ w, v.Reserve n = .ok w ∧ w.Rep xs ∧ (n ≤ v.Capacity → w = v) ∧
      (v.Capacity < n → w.Capacity = n) := by
  have hslot := rep_slot h
  obtain ⟨hs, hcap, hget⟩ := h
  by_cases hn : n > v.data_.buffer_.length
  · have hfits : n * ElementTraits.sizeof T ≤ SIZE_MAX := by
      rcases hfit with hle | hf
      · have : n ≤ v.data_.buffer_.length := hle
        omega
      · exact hf
    obtain ⟨b, hb, hblen, hbget⟩ := relocate_n_spec v.data_.buffer_ v.size_ 0
      (List.replicate n (none : Option T)) 0 hslot (by simp; omega)
    obtain ⟨old, hold, -, -⟩ := destroy_n_spec v.size_ 0 v.data_.buffer_ hslot
    refine ⟨⟨⟨b⟩, v.size_⟩, ?_, ⟨hs, ?_, ?_⟩, ?_, ?_⟩
    · simp only [Vector.Reserve, RawMemory.Capacity, if_pos hn, create_of_fits n hfits,
        RawMemory.alloc, hb, hold, RawMemory.Swap]
    · simp only [hblen, List.length_replicate]
      omega
    · intro i hi
      rw [hbget i, if_pos (by omega), Nat.zero_add, Nat.sub_zero, hget i hi]
    · intro hle
      have : n ≤ v.data_.buffer_.length := hle
      omega
    · intro _
      show b.length = n
      rw [hblen, List.length_replicate]
  · refine ⟨v, ?_, ⟨hs, hcap, hget⟩, fun _ => rfl, fun hlt => ?_⟩
    · simp only [Vector.Reserve, RawMemory.Capacity, if_neg hn]
    · have : v.data_.buffer_.length < n := hlt
      omega

theorem PopBack_ok {T : Type} (buf : List (Option T)) (size : Nat) (y : T) (hpos : 0 < size)
    (hlast : buf[size - 1]? = some (some y)) :
    (⟨⟨buf⟩, size⟩ : Vector T).PopBack = .ok ⟨⟨buf.set (size - 1) none⟩, size - 1⟩ := by
  simp only [Vector.PopBack, gt_iff_lt, if_pos hpos, destroy_at_of_live hlast]

theorem Erase_rep {T : Type} (v : Vector T) (xs : List T) (p : Nat)
    (h : v.Rep xs) (hp : p < xs.length) :
    ∃ w, v.Erase p = .ok (w, p) ∧ w.Rep (xs.eraseIdx p) ∧ w.Capacity = v.Capacity := by
  have hlive : ∀ i, i < v.size_ → ∃ y, v.data_.buffer_[i]? = some (some y) :=
    fun i hi => rep_live h i (by rw [← h.1]; exact hi)
  obtain ⟨hs, hcap, hget⟩ := h
  -- the shifting step
  have hshift : ∃ r, (if p + 1 < v.size_ then move_range v.data_.buffer_ (p + 1) v.size_ p
        else .ok v.data_.buffer_) = .ok r ∧ r.length = v.data_.buffer_.length ∧
      ∀ j, r[j]? = if p ≤ j ∧ j + 1 < v.size_ then v.data_.buffer_[j + 1]?
                   else v.data_.buffer_[j]? := by
    by_cases hlt : p + 1 < v.size_
    · obtain ⟨r, hr, hrlen, hrget⟩ := move_loop_spec (v.size_ - (p + 1)) p v.data_.buffer_
        (fun k hk => hlive (p + k) (by omega))
      refine ⟨r, ?_, hrlen, fun j => ?_⟩
      · rw [if_pos hlt, move_range, if_neg (by omega)]
        exact hr
      · rw [hrget j]
        by_cases hj : p ≤ j ∧ j + 1 < v.size_
        · rw [if_pos hj, if_pos (by omega)]
        · rw [if_neg hj, if_neg (by omega)]
    · refine ⟨v.data_.buffer_, by rw [if_neg hlt], rfl, fun j => ?_⟩
      rw [if_neg (by omega)]
  obtain ⟨r, hr, hrlen, hrget⟩ := hshift
  obtain ⟨y, hy⟩ := hlive (v.size_ - 1) (by omega)
  have hlast : r[v.size_ - 1]? = some (some y) := by
    rw [hrget, if_neg (by omega)]
    exact hy
  refine ⟨⟨⟨r.set (v.size_ - 1) none⟩, v.size_ - 1⟩, ?_, ⟨?_, ?_, ?_⟩, ?_⟩
  · simp only [Vector.Erase, hr, PopBack_ok r v.size_ y (by omega) hlast]
  · rw [List.length_eraseIdx_of_lt hp, hs]
  · rw [List.length_eraseIdx_of_lt hp, List.length_set, hrlen]
    omega
  · intro i hi
    rw [List.length_eraseIdx_of_lt hp] at hi
    rw [List.getElem?_set_ne (by omega), hrget i, List.getElem?_eraseIdx]
    by_cases hip : i < p
    · rw [if_neg (by omega), if_pos hip, hget i (by omega)]
    · rw [if_pos (by omega), if_neg hip, hget (i + 1) (by omega)]
  · show (r.set (v.size_ - 1) none).length = v.data_.buffer_.length
    rw [List.length_set, hrlen]

theorem getElem?_take_cons_drop {T : Type} (xs : List T) (p : Nat) (x : T) (hp : p ≤ xs.length)
    (i : Nat) :
    (xs.take p ++ [x] ++ xs.drop p)[i]? =
      if i < p then xs[i]? else if i = p then some x else xs[i - 1]? := by
  have hlen : (xs.take p ++ [x]).length = p + 1 := by
    rw [List.length_append, List.length_take, List.length_singleton, Nat.min_eq_left hp]
  have hlen' : (xs.take p).length = p := by
    rw [List.length_take, Nat.min_eq_left hp]
  by_cases h1 : i < p
  · rw [if_pos h1, List.getElem?_append_left (by omega),
      List.getElem?_append_left (by omega), List.getElem?_take_of_lt h1]
  · rw [if_neg h1]
    by_cases h2 : i = p
    · subst h2
      rw [if_pos rfl, List.getElem?_append_left (by omega),
        List.getElem?_append_right (by omega), hlen', Nat.sub_self]
      rfl
    · rw [if_neg h2, List.getElem?_append_right (by omega), hlen, List.getElem?_drop]
      congr 1; omega

theorem length_take_cons_drop {T : Type} (xs : List T) (p : Nat) (x : T) (hp : p ≤ xs.length) :
    (xs.take p ++ [x] ++ xs.drop p).length = xs.length + 1 := by
  rw [List.length_append, List.length_append, List.length_take, List.length_singleton,
    List.length_drop, Nat.min_eq_left hp]
  omega

theorem Emplace_rep {T : Type} [ElementTraits T] (v : Vector T) (xs : List T) (p : Nat) (x : T)
    (h : v.Rep xs) (hp : p < xs.length) :
    ∃ w, v.Emplace p x = .ok (w, p) ∧ w.Rep (xs.take p ++ [x] ++ xs.drop p) ∧
      w.Capacity = if v.Size < v.Capacity then v.Capacity else 2 * v.Size := by
  have hlive : ∀ i, i < v.size_ → ∃ y, v.data_.buffer_[i]? = some (some y) :=
    fun i hi => rep_live h i (by rw [← h.1]; exact hi)
  have hslot := rep_slot h
  obtain ⟨hs, hcap, hget⟩ := h
  have hne : ¬ v.size_ = p := by omega
  have hnz : ¬ v.size_ = 0 := by omega
  by_cases hspare : v.size_ < v.data_.buffer_.length
  · -- spare capacity: shift the tail one slot to the right
    obtain ⟨y, hy⟩ := hlive (v.size_ - 1) (by omega)
    obtain ⟨b2, hb2, hb2len, hb2get⟩ := move_backward_loop_spec (v.size_ - 1 - p) (v.size_ - 1)
      (v.data_.buffer_.set v.size_ (some y)) (by omega)
      (fun k hk => by
        obtain ⟨z, hz⟩ := hlive (v.size_ - 1 - k) (by omega)
        exact ⟨z, by rw [List.getElem?_set_ne (by omega), hz]⟩)
    have hsz : v.size_ - 1 + 1 = v.size_ := by omega
    rw [hsz] at hb2
    have hpl : p < b2.length := by rw [hb2len, List.length_set]; omega
    obtain ⟨z, hz⟩ := hlive p (by omega)
    have hb2p : b2[p]? = some (some z) := by
      rw [hb2get p, if_neg (by omega), List.getElem?_set_ne (by omega), hz]
    refine ⟨⟨⟨b2.set p (some x)⟩, v.size_ + 1⟩, ?_, ⟨?_, ?_, ?_⟩, ?_⟩
    · simp only [Vector.Emplace, if_neg hne, Vector.Capacity, RawMemory.Capacity, if_pos hspare,
        if_neg hnz, RawMemory.subscript, if_pos (show v.size_ - 1 < v.data_.buffer_.length by omega),
        load_of_live hy, RawMemory.plus, if_pos (Nat.le_of_lt hspare),
        construct_at_of_lt y hspare, move_backward,
        if_neg (show ¬ v.size_ - 1 < p by omega), hb2, if_pos hpl, assign_at_of_live x hb2p]
    · rw [length_take_cons_drop xs p x (by omega), hs]
    · rw [length_take_cons_drop xs p x (by omega), List.length_set, hb2len, List.length_set]
      omega
    · intro i hi
      rw [length_take_cons_drop xs p x (by omega)] at hi
      rw [getElem?_take_cons_drop xs p x (by omega)]
      by_cases h1 : i < p
      · rw [if_pos h1, List.getElem?_set_ne (by omega), hb2get i, if_neg (by omega),
          List.getElem?_set_ne (by omega), hget i (by omega)]
      · rw [if_neg h1]
        by_cases h2 : i = p
        · subst h2
          rw [if_pos rfl, List.getElem?_set_self hpl]
        · rw [if_neg h2, List.getElem?_set_ne (by omega), hb2get i]
          by_cases h3 : i = v.size_
          · rw [if_neg (by omega), h3, List.getElem?_set_self hspare, ← hy,
              hget (v.size_ - 1) (by omega)]
          · rw [if_pos (by omega), List.getElem?_set_ne (by omega), hget (i - 1) (by omega)]
    · rw [if_pos (show v.Size < v.Capacity from hspare)]
      show (b2.set p (some x)).length = v.data_.buffer_.length
      rw [List.length_set, hb2len, List.length_set]
  · -- full storage: build the new allocation around the new element
    have hfull : v.size_ = v.data_.buffer_.length := by omega
    have hp2 : p < (List.replicate (v.size_ * 2) (none : Option T)).length := by
      rw [List.length_replicate]; omega
    obtain ⟨b2, hb2, hb2len, hb2get⟩ := relocate_n_spec v.data_.buffer_ p 0
      ((List.replicate (v.size_ * 2) (none : Option T)).set p (some x)) 0
      (fun k hk => hslot k (by omega))
      (by rw [List.length_set, List.length_replicate]; omega)
    obtain ⟨b3, hb3, hb3len, hb3get⟩ := relocate_n_spec v.data_.buffer_ (v.size_ - p) p
      b2 (p + 1)
      (fun k hk => hlive (p + k) (by omega))
      (by rw [hb2len, List.length_set, List.length_replicate]; omega)
    obtain ⟨old, hold, -, -⟩ := destroy_n_spec v.size_ 0 v.data_.buffer_ hslot
    refine ⟨⟨⟨b3⟩, v.size_ + 1⟩, ?_, ⟨?_, ?_, ?_⟩, ?_⟩
    · simp only [Vector.Emplace, if_neg hne, Vector.Capacity, RawMemory.Capacity, if_neg hspare,
        RawMemory.alloc, RawMemory.plus, List.length_replicate,
        if_pos (show p ≤ v.size_ * 2 by omega), construct_at_of_lt x hp2, hb2, hb3, hold,
        RawMemory.Swap]
    · rw [length_take_cons_drop xs p x (by omega), hs]
    · rw [length_take_cons_drop xs p x (by omega), hb3len, hb2len, List.length_set,
        List.length_replicate]
      omega
    · intro i hi
      rw [length_take_cons_drop xs p x (by omega)] at hi
      rw [getElem?_take_cons_drop xs p x (by omega), hb3get i]
      by_cases h1 : i < p
      · rw [if_pos h1, if_neg (by omega), hb2get i, if_pos (by omega), Nat.zero_add,
          Nat.sub_zero, hget i (by omega)]
      · rw [if_neg h1]
        by_cases h2 : i = p
        · subst h2
          rw [if_pos rfl, if_neg (by omega), hb2get i, if_neg (by omega),
            List.getElem?_set_self hp2]
        · rw [if_neg h2, if_pos (by omega), hget (p + (i - (p + 1))) (by omega)]
          congr 2; omega
    · rw [if_neg (show ¬ v.Size < v.Capacity from hspare)]
      show b3.length = 2 * v.size_
      rw [hb3len, hb2len, List.length_set, List.length_replicate]
      omega

/-! ## The claims settled on the operations -/

theorem holds_subscript {T : Type} {v : Vector T} {xs : List T} (h : v.Holds xs) (i : Nat)
    (x : T) (hx : xs[i]? = some x) : v.subscript i = .ok x := by
  have hi : i < xs.length := by
    by_contra hc
    rw [List.getElem?_eq_none (by omega)] at hx
    cases hx
  have := h.2.2 ⟨i, hi⟩
  rw [this]
  rw [List.getElem?_eq_getElem hi] at hx
  cases hx
  rfl

/-- C6 (counterexample): for 4-byte elements `Allocate(2^62)` computes a byte count that
wraps to 0 in `size_t`, so `Reserve(2^62)` on the Vector `[1]` relocates its element into a
block with no slot: the call does not end with the element kept and capacity `2^62`. -/
theorem Reserve_wrapped_byte_count :
    (⟨⟨[some 1]⟩, 1⟩ : Vector Nat).Holds [1] ∧
    RawMemory.Allocate Nat 4611686018427387904 = 0 ∧
    (⟨⟨[some 1]⟩, 1⟩ : Vector Nat).Reserve 4611686018427387904 = .error .underAllocated ∧
    ¬ ∃ w, (⟨⟨[some 1]⟩, 1⟩ : Vector Nat).Reserve 4611686018427387904 = .ok w := by
  have h : (⟨⟨[some 1]⟩, 1⟩ : Vector Nat).Reserve 4611686018427387904 =
      .error .underAllocated := by decide
  refine ⟨by decide, by decide, h, ?_⟩
  rintro ⟨w, hw⟩
  rw [h] at hw
  cases hw

/-- C6 (amended): when `n <= Capacity()` or the byte count `n * sizeof(T)` does not wrap in
`size_t`, `Reserve(n)` on a Vector holding `xs` succeeds, leaves the size and every element
unchanged and never lowers the capacity: for `n <= Capacity()` the whole state is unchanged,
otherwise the capacity becomes exactly `n`. -/
theorem Reserve_keeps_elements {T : Type} [ElementTraits T] (v : Vector T) (xs : List T)
    (n : Nat) (hv : v.Holds xs)
    (hfit : n ≤ v.Capacity ∨ n * ElementTraits.sizeof T ≤ SIZE_MAX) :
    ∃ w, v.Reserve n = .ok w ∧ w.Holds xs ∧ w.Size = v.Size ∧ v.Capacity ≤ w.Capacity ∧
      (n ≤ v.Capacity → w = v) ∧ (v.Capacity < n → w.Capacity = n) := by
  obtain ⟨w, hw, hrep, hsame, hgrow⟩ := Reserve_rep v xs n ((holds_iff_rep v xs).1 hv) hfit
  have hwh := (holds_iff_rep w xs).2 hrep
  refine ⟨w, hw, hwh, by rw [hwh.1, hv.1], ?_, hsame, hgrow⟩
  by_cases hn : n ≤ v.Capacity
  · rw [hsame hn]
  · rw [hgrow (by omega)]; omega

/-- Witness of C6 (amended) on the Vector `[1, 2]` of capacity 2 and `n = 5`. -/
theorem Reserve_keeps_elements_witness :
    (⟨⟨[some 1, some 2]⟩, 2⟩ : Vector Nat).Holds [1, 2] ∧
    (5 ≤ (⟨⟨[some 1, some 2]⟩, 2⟩ : Vector Nat).Capacity ∨
      5 * ElementTraits.sizeof Nat ≤ SIZE_MAX) ∧
    ∃ w, (⟨⟨[some 1, some 2]⟩, 2⟩ : Vector Nat).Reserve 5 = .ok w ∧ w.Holds [1, 2] ∧
      w.Size = (⟨⟨[some 1, some 2]⟩, 2⟩ : Vector Nat).Size ∧
      (⟨⟨[some 1, some 2]⟩, 2⟩ : Vector Nat).Capacity ≤ w.Capacity ∧
      (5 ≤ (⟨⟨[some 1, some 2]⟩, 2⟩ : Vector Nat).Capacity → w = ⟨⟨[some 1, some 2]⟩, 2⟩) ∧
      ((⟨⟨[some 1, some 2]⟩, 2⟩ : Vector Nat).Capacity < 5 → w.Capacity = 5) :=
  ⟨by decide, by decide,
    Reserve_keeps_elements ⟨⟨[some 1, some 2]⟩, 2⟩ [1, 2] 5 (by decide) (by decide)⟩

/-- C8: on a Vector holding `xs`, `Emplace`/`Insert` at a position `p < Size()` succeeds,
returns the iterator at offset `p` and leaves the Vector holding
`(first p elements) ++ [x] ++ (elements from p onward)`; with spare capacity the capacity is
unchanged, with full storage it becomes twice the old size. -/
theorem Emplace_before_end {T : Type} [ElementTraits T] (v : Vector T) (xs : List T)
    (p : Nat) (x : T) (hv : v.Holds xs) (hp : p < v.Size) :
    ∃ w, v.Emplace p x = .ok (w, p) ∧ v.Insert p x = .ok (w, p) ∧
      w.Holds (xs.take p ++ [x] ++ xs.drop p) ∧ w.Size = v.Size + 1 ∧
      (v.Size < v.Capacity → w.Capacity = v.Capacity) ∧
      (¬ v.Size < v.Capacity → w.Capacity = 2 * v.Size) := by
  have hp' : p < xs.length := by rw [← hv.1]; exact hp
  obtain ⟨w, hw, hrep, hcap⟩ := Emplace_rep v xs p x ((holds_iff_rep v xs).1 hv) hp'
  have hwh := (holds_iff_rep w _).2 hrep
  refine ⟨w, hw, hw, hwh, ?_, fun h => by rw [hcap, if_pos h], fun h => by rw [hcap, if_neg h]⟩
  rw [hwh.1, length_take_cons_drop xs p x (by omega), hv.1]

/-- Witness of C8 on the scenario of the specification: `[1, 2, 3]` with capacity 4,
`InsertAt(1, 9)`. -/
theorem Emplace_before_end_witness :
    (⟨⟨[some 1, some 2, some 3, none]⟩, 3⟩ : Vector Nat).Holds [1, 2, 3] ∧
    1 < (⟨⟨[some 1, some 2, some 3, none]⟩, 3⟩ : Vector Nat).Size ∧
    ∃ w, (⟨⟨[some 1, some 2, some 3, none]⟩, 3⟩ : Vector Nat).Emplace 1 9 = .ok (w, 1) ∧
      (⟨⟨[some 1, some 2, some 3, none]⟩, 3⟩ : Vector Nat).Insert 1 9 = .ok (w, 1) ∧
      w.Holds ([1, 2, 3].take 1 ++ [9] ++ [1, 2, 3].drop 1) ∧
      w.Size = (⟨⟨[some 1, some 2, some 3, none]⟩, 3⟩ : Vector Nat).Size + 1 ∧
      ((⟨⟨[some 1, some 2, some 3, none]⟩, 3⟩ : Vector Nat).Size <
          (⟨⟨[some 1, some 2, some 3, none]⟩, 3⟩ : Vector Nat).Capacity →
        w.Capacity = (⟨⟨[some 1, some 2, some 3, none]⟩, 3⟩ : Vector Nat).Capacity) ∧
      (¬ (⟨⟨[some 1, some 2, some 3, none]⟩, 3⟩ : Vector Nat).Size <
          (⟨⟨[some 1, some 2, some 3, none]⟩, 3⟩ : Vector Nat).Capacity →
        w.Capacity = 2 * (⟨⟨[some 1, some 2, some 3, none]⟩, 3⟩ : Vector Nat).Size) :=
  ⟨by decide, by decide,
    Emplace_before_end ⟨⟨[some 1, some 2, some 3, none]⟩, 3⟩ [1, 2, 3] 1 9 (by decide) (by decide)⟩

/-- C10: on a Vector holding `xs`, `Erase` at a position `p < Size()` succeeds, returns the
iterator at offset `p` (the following element, or `end()` when the last element was erased)
and leaves the Vector holding `xs` without its element of index `p`: elements before `p`
unchanged, later ones one slot to the left, size one less, capacity unchanged. -/
theorem Erase_removes {T : Type} (v : Vector T) (xs : List T) (p : Nat)
    (hv : v.Holds xs) (hp : p < v.Size) :
    ∃ w, v.Erase p = .ok (w, p) ∧ w.Holds (xs.eraseIdx p) ∧ w.Size + 1 = v.Size ∧
      w.Capacity = v.Capacity ∧
      (∀ i, i < p → w.subscript i = v.subscript i) ∧
      (∀ i, p ≤ i → i + 1 < v.Size → w.subscript i = v.subscript (i + 1)) ∧
      (p + 1 = v.Size → p = w.endOffset) := by
  have hp' : p < xs.length := by rw [← hv.1]; exact hp
  have hsz : v.Size = xs.length := hv.1
  obtain ⟨w, hw, hrep, hcap⟩ := Erase_rep v xs p ((holds_iff_rep v xs).1 hv) hp'
  have hwh := (holds_iff_rep w _).2 hrep
  have hwsz : w.Size + 1 = v.Size := by
    rw [hwh.1, List.length_eraseIdx_of_lt hp', hv.1]; omega
  refine ⟨w, hw, hwh, hwsz, hcap, fun i hi => ?_, fun i hi1 hi2 => ?_, fun hlast => ?_⟩
  · have hx : xs[i]? = some xs[i] := List.getElem?_eq_getElem (by omega)
    rw [holds_subscript hv i _ hx, holds_subscript hwh i xs[i]
      (by rw [List.getElem?_eraseIdx_of_lt _ _ _ hi]; exact hx)]
  · have hx : xs[i + 1]? = some xs[i + 1] := List.getElem?_eq_getElem (by omega)
    rw [holds_subscript hv (i + 1) _ hx, holds_subscript hwh i xs[i + 1]
      (by rw [List.getElem?_eraseIdx_of_ge _ _ _ hi1]; exact hx)]
  · show p = w.Size
    omega

/-- Witness of C10 on the scenario of the specification: `[1, 9, 2, 3]`, `EraseAt(2)`. -/
theorem Erase_removes_witness :
    (⟨⟨[some 1, some 9, some 2, some 3]⟩, 4⟩ : Vector Nat).Holds [1, 9, 2, 3] ∧
    2 < (⟨⟨[some 1, some 9, some 2, some 3]⟩, 4⟩ : Vector Nat).Size ∧
    ∃ w, (⟨⟨[some 1, some 9, some 2, some 3]⟩, 4⟩ : Vector Nat).Erase 2 = .ok (w, 2) ∧
      w.Holds ([1, 9, 2, 3].eraseIdx 2) ∧
      w.Size + 1 = (⟨⟨[some 1, some 9, some 2, some 3]⟩, 4⟩ : Vector Nat).Size ∧
      w.Capacity = (⟨⟨[some 1, some 9, some 2, some 3]⟩, 4⟩ : Vector Nat).Capacity ∧
      (∀ i, i < 2 → w.subscript i =
        (⟨⟨[some 1, some 9, some 2, some 3]⟩, 4⟩ : Vector Nat).subscript i) ∧
      (∀ i, 2 ≤ i → i + 1 < (⟨⟨[some 1, some 9, some 2, some 3]⟩, 4⟩ : Vector Nat).Size →
        w.subscript i = (⟨⟨[some 1, some 9, some 2, some 3]⟩, 4⟩ : Vector Nat).subscript (i + 1)) ∧
      (2 + 1 = (⟨⟨[some 1, some 9, some 2, some 3]⟩, 4⟩ : Vector Nat).Size → 2 = w.endOffset) :=
  ⟨by decide, by decide,
    Erase_removes ⟨⟨[some 1, some 9, some 2, some 3]⟩, 4⟩ [1, 9, 2, 3] 2 (by decide) (by decide)⟩

/-- C2 (the code departs from the claim): `Emplace` at `p == Size()` on the empty Vector ends
with `Size() == 2`, two more than before and one more than the capacity, because the
increment done by `EmplaceBack` is followed by the `size_++` shared by all branches. -/
theorem Emplace_at_end_size_plus_two :
    (Vector.empty : Vector Nat).Size = 0 ∧
    (Vector.empty : Vector Nat).Emplace 0 7 = .ok (⟨⟨[some 7]⟩, 2⟩, 0) ∧
    (⟨⟨[some 7]⟩, 2⟩ : Vector Nat).Size = 2 ∧ (⟨⟨[some 7]⟩, 2⟩ : Vector Nat).Capacity = 1 := by
  decide

/-- C3 (the code departs from the claim): on the Vector `[1]` of capacity 4, `Emplace(1, 7)`
at `p == Size()` leaves `size_ == 3`, and the following `Erase(1)` moves from slot 2, which
holds no element; the prior Vector is not restored. -/
theorem Emplace_Erase_at_end_not_restored :
    (⟨⟨[some 1, none, none, none]⟩, 1⟩ : Vector Nat).Emplace 1 7 =
      .ok (⟨⟨[some 1, some 7, none, none]⟩, 3⟩, 1) ∧
    (⟨⟨[some 1, some 7, none, none]⟩, 3⟩ : Vector Nat).Erase 1 = .error .notLive := by
  decide

/-- C4 (the code departs from the claim): copy-assigning `s = [1, 2, 3]` to `d = [9]` of
capacity 3 takes the branch that reuses the slots of `d` and constructs the two new elements
from `s[0], s[1]` instead of `s[1], s[2]`: `d` ends as `[1, 1, 2]`. -/
theorem copyAssign_longer_source_wrong_elements :
    (⟨⟨[some 9, none, none]⟩, 1⟩ : Vector Nat).copyAssign ⟨⟨[some 1, some 2, some 3, none]⟩, 3⟩ =
      .ok (⟨⟨[some 1, some 1, some 2]⟩, 3⟩, ⟨⟨[some 1, some 2, some 3, none]⟩, 3⟩) ∧
    (⟨⟨[some 1, some 1, some 2]⟩, 3⟩ : Vector Nat).subscript 1 = .ok 1 ∧
    (⟨⟨[some 1, some 2, some 3, none]⟩, 3⟩ : Vector Nat).subscript 1 = .ok 2 := by
  decide

/-- C5 (counterexample): move-assigning `s = [2]` to `d = [1]` leaves the source with size 1,
not 0. -/
theorem moveAssign_source_not_emptied :
    ¬ (((⟨⟨[some 1]⟩, 1⟩ : Vector Nat).moveAssign ⟨⟨[some 2]⟩, 1⟩).2.Size = 0) := by
  decide

/-- C5 (amended): after move-assignment the destination has the prior size, elements and
capacity of the source, and the source has those of the destination; the source ends with
size 0 exactly when the destination was empty before. -/
theorem moveAssign_exchanges {T : Type} (d s : Vector T) :
    (d.moveAssign s).1.Size = s.Size ∧
    (∀ i, (d.moveAssign s).1.subscript i = s.subscript i) ∧
    (d.moveAssign s).1.Capacity = s.Capacity ∧
    (d.moveAssign s).2.Size = d.Size ∧
    (∀ i, (d.moveAssign s).2.subscript i = d.subscript i) ∧
    (d.moveAssign s).2.Capacity = d.Capacity ∧
    ((d.moveAssign s).2.Size = 0 ↔ d.Size = 0) :=
  ⟨rfl, fun _ => rfl, rfl, rfl, fun _ => rfl, rfl, Iff.rfl⟩

/-- C9 (the code departs from the claim): on the Vector `[1]` of capacity 2, `Emplace` at
`p == Size()` and `PushBack` build the same elements, but `Emplace` ends with `Size() == 3`
where `PushBack` ends with `Size() == 2`. -/
theorem Emplace_at_end_differs_from_PushBack :
    (⟨⟨[some 1, none]⟩, 1⟩ : Vector Nat).Emplace 1 7 = .ok (⟨⟨[some 1, some 7]⟩, 3⟩, 1) ∧
    (⟨⟨[some 1, none]⟩, 1⟩ : Vector Nat).EmplaceBack 7 = .ok (⟨⟨[some 1, some 7]⟩, 2⟩, 1) ∧
    (⟨⟨[some 1, none]⟩, 1⟩ : Vector Nat).PushBack 7 = .ok ⟨⟨[some 1, some 7]⟩, 2⟩ := by
  decide

/-! ## Supporting facts -/

theorem eraseIdx_take_cons_drop {T : Type} (xs : List T) (p : Nat) (x : T) (hp : p ≤ xs.length) :
    (xs.take p ++ [x] ++ xs.drop p).eraseIdx p = xs := by
  apply List.ext_getElem?
  intro i
  rw [List.getElem?_eraseIdx, getElem?_take_cons_drop xs p x hp,
    getElem?_take_cons_drop xs p x hp]
  by_cases h : i < p
  · rw [if_pos h, if_pos h]
  · rw [if_neg h, if_neg (by omega), if_neg (by omega), Nat.add_sub_cancel]

/-- Round trip away from the end: at every position before the end, `Emplace` followed by `Erase`
at the same position succeeds and gives back a Vector holding the prior sequence. -/
theorem Emplace_Erase_before_end {T : Type} [ElementTraits T] (v : Vector T) (xs : List T)
    (p : Nat) (x : T) (hv : v.Holds xs) (hp : p < v.Size) :
    ∃ w u, v.Emplace p x = .ok (w, p) ∧ w.Erase p = .ok (u, p) ∧ u.Holds xs := by
  have hp' : p < xs.length := by rw [← hv.1]; exact hp
  obtain ⟨w, hw, hrep, -⟩ := Emplace_rep v xs p x ((holds_iff_rep v xs).1 hv) hp'
  obtain ⟨u, hu, hurep, -⟩ := Erase_rep w _ p hrep
    (by rw [length_take_cons_drop xs p x (by omega)]; omega)
  rw [eraseIdx_take_cons_drop xs p x (by omega)] at hurep
  exact ⟨w, u, hw, hu, (holds_iff_rep u xs).2 hurep⟩

/-- Insertion at the end: on every Vector holding `xs`, `Emplace` at
`p == Size()` succeeds with the allocation that `PushBack` builds and with `size_` two more
than before. -/
theorem Emplace_at_end {T : Type} [ElementTraits T] (v : Vector T) (xs : List T) (x : T)
    (hv : v.Holds xs) :
    ∃ w, v.PushBack x = .ok w ∧ w.Size = v.Size + 1 ∧
      v.Emplace v.Size x = .ok (⟨w.data_, v.Size + 2⟩, v.Size) := by
  obtain ⟨w, hw, hrep, -⟩ := InsertInVector_rep v xs x ((holds_iff_rep v xs).1 hv)
  have hsz : w.size_ = v.size_ + 1 := by
    rw [hrep.1, List.length_append, List.length_singleton, ← hv.1]
    rfl
  have hlen : xs.length = v.size_ := hv.1.symm
  refine ⟨w, by simp only [Vector.PushBack, hw], hsz, ?_⟩
  simp only [Vector.Emplace, Vector.Size, if_pos, Vector.EmplaceBack, hw, hsz, hlen]

/-! ## Resizing, removal of the last element, constructors and copy-assignment -/

theorem uninitialized_value_construct_n_spec {T : Type} [Inhabited T] :
    ∀ (n first : Nat) (buf : List (Option T)),
      first + n ≤ buf.length →
      ∃ r, uninitialized_value_construct_n buf first n = .ok r ∧ r.length = buf.length ∧
        ∀ j, r[j]? = if first ≤ j ∧ j < first + n then some (some default) else buf[j]? := by
  intro n
  induction n with
  | zero =>
    intro first buf _
    refine ⟨buf, rfl, rfl, fun j => ?_⟩
    have : ¬ (first ≤ j ∧ j < first + 0) := by omega
    rw [if_neg this]
  | succ n ih =>
    intro first buf hlen
    have hd : first < buf.length := by omega
    obtain ⟨r, hr, hrlen, hrget⟩ := ih (first + 1) (buf.set first (some default))
      (by rw [List.length_set]; omega)
    refine ⟨r, ?_, by simpa using hrlen, fun j => ?_⟩
    · simp only [uninitialized_value_construct_n, construct_at_of_lt default hd]
      exact hr
    · rw [hrget j]
      by_cases h1 : j = first
      · subst h1
        have : ¬ (j + 1 ≤ j ∧ j < j + 1 + n) := by omega
        rw [if_neg this, if_pos (by omega), List.getElem?_set_self hd]
      · by_cases h2 : first + 1 ≤ j ∧ j < first + 1 + n
        · have h3 : first ≤ j ∧ j < first + (n + 1) := by omega
          rw [if_pos h2, if_pos h3]
        · have h3 : ¬ (first ≤ j ∧ j < first + (n + 1)) := by omega
          rw [if_neg h2, if_neg h3, List.getElem?_set_ne (Ne.symm h1)]

theorem Resize_shrink_rep {T : Type} [ElementTraits T] [Inhabited T] (v : Vector T)
    (xs : List T) (n : Nat) (h : v.Rep xs) (hn : n < xs.length) :
    ∃ w, v.Resize n = .ok w ∧ w.Rep (xs.take n) ∧ w.Capacity = v.Capacity := by
  have hlive : ∀ i, i < v.size_ → ∃ y, v.data_.buffer_[i]? = some (some y) :=
    fun i hi => rep_live h i (by rw [← h.1]; exact hi)
  obtain ⟨hs, hcap, hget⟩ := h
  obtain ⟨b, hb, hblen, hbget⟩ := destroy_n_spec (v.size_ - n) n v.data_.buffer_
    (fun k hk => hlive (n + k) (by omega))
  refine ⟨⟨⟨b⟩, n⟩, ?_, ⟨?_, ?_, ?_⟩, ?_⟩
  · simp only [Vector.Resize, if_neg (show ¬ v.size_ < n by omega), gt_iff_lt,
      if_pos (show n < v.size_ by omega), hb]
  · rw [List.length_take, Nat.min_eq_left (by omega)]
  · rw [List.length_take, Nat.min_eq_left (by omega), hblen]
    omega
  · intro i hi
    rw [List.length_take, Nat.min_eq_left (by omega)] at hi
    rw [hbget i, if_neg (by omega), hget i (by omega), List.getElem?_take_of_lt hi]
  · show b.length = v.data_.buffer_.length
    exact hblen

theorem Resize_grow_rep {T : Type} [ElementTraits T] [Inhabited T] (v : Vector T)
    (xs : List T) (n : Nat) (h : v.Rep xs) (hn : xs.length < n)
    (hfit : n ≤ v.Capacity ∨ n * ElementTraits.sizeof T ≤ SIZE_MAX) :
    ∃ w, v.Resize n = .ok w ∧ w.Rep (xs ++ List.replicate (n - xs.length) default) ∧
      w.Capacity = max v.Capacity n := by
  have hs : v.size_ = xs.length := h.1
  obtain ⟨u, hu, hurep, hsame, hgrow⟩ := Reserve_rep v xs n h hfit
  have hus : u.size_ = v.size_ := by rw [hurep.1, hs]
  have hucap : u.data_.buffer_.length = max v.Capacity n := by
    by_cases hle : n ≤ v.Capacity
    · rw [hsame hle, Nat.max_eq_left hle]; rfl
    · have := hgrow (by omega)
      rw [Nat.max_eq_right (by omega)]
      exact this
  have hn' : n ≤ u.data_.buffer_.length := by rw [hucap]; exact Nat.le_max_right _ _
  obtain ⟨b, hb, hblen, hbget⟩ := uninitialized_value_construct_n_spec (n - u.size_) u.size_
    u.data_.buffer_ (by omega)
  refine ⟨⟨⟨b⟩, n⟩, ?_, ⟨?_, ?_, ?_⟩, ?_⟩
  · simp only [Vector.Resize, if_pos (show v.size_ < n by omega), hu, hb]
  · show n = _
    rw [List.length_append, List.length_replicate]
    omega
  · rw [List.length_append, List.length_replicate, hblen]
    omega
  · intro i hi
    rw [List.length_append, List.length_replicate] at hi
    rw [hbget i]
    by_cases hlt : i < xs.length
    · rw [if_neg (by omega), hurep.2.2 i hlt, List.getElem?_append_left hlt]
    · rw [if_pos (by omega), List.getElem?_append_right (by omega),
        List.getElem?_replicate_of_lt (by omega)]
  · show b.length = _
    rw [hblen, hucap]

theorem PopBack_rep {T : Type} (v : Vector T) (xs : List T) (h : v.Rep xs)
    (hpos : 0 < xs.length) :
    ∃ w, v.PopBack = .ok w ∧ w.Rep xs.dropLast ∧ w.Capacity = v.Capacity := by
  obtain ⟨y, hy⟩ := rep_live h (xs.length - 1) (by omega)
  obtain ⟨hs, hcap, hget⟩ := h
  rw [← hs] at hy
  refine ⟨⟨⟨v.data_.buffer_.set (v.size_ - 1) none⟩, v.size_ - 1⟩, ?_, ⟨?_, ?_, ?_⟩, ?_⟩
  · exact PopBack_ok v.data_.buffer_ v.size_ y (by omega) hy
  · rw [List.length_dropLast, hs]
  · rw [List.length_dropLast, List.length_set]
    omega
  · intro i hi
    rw [List.length_dropLast] at hi
    rw [List.getElem?_set_ne (by omega), hget i (by omega), List.getElem?_dropLast,
      if_pos hi]
  · show (v.data_.buffer_.set (v.size_ - 1) none).length = v.data_.buffer_.length
    rw [List.length_set]

theorem ofSize_rep {T : Type} [ElementTraits T] [Inhabited T] (n : Nat)
    (hfit : n * ElementTraits.sizeof T ≤ SIZE_MAX) :
    ∃ w, (Vector.ofSize n : Except Fault (Vector T)) = .ok w ∧
      w.Rep (List.replicate n default) ∧ w.Capacity = n := by
  obtain ⟨b, hb, hblen, hbget⟩ := uninitialized_value_construct_n_spec n 0
    (List.replicate n (none : Option T)) (by rw [List.length_replicate]; omega)
  refine ⟨⟨⟨b⟩, n⟩, ?_, ⟨?_, ?_, ?_⟩, ?_⟩
  · simp only [Vector.ofSize, create_of_fits n hfit, RawMemory.alloc, hb]
  · rw [List.length_replicate]
  · rw [List.length_replicate, hblen, List.length_replicate]
  · intro i hi
    rw [List.length_replicate] at hi
    rw [hbget i, if_pos (by omega), List.getElem?_replicate_of_lt hi]
  · show b.length = n
    rw [hblen, List.length_replicate]

theorem copy_rep {T : Type} (s : Vector T) (xs : List T) (h : s.Rep xs) :
    ∃ w, s.copy = .ok w ∧ w.Rep xs ∧ w.Capacity = s.Size ∧ w.Size = s.Size := by
  have hslot := rep_slot h
  obtain ⟨hs, hcap, hget⟩ := h
  obtain ⟨b, hb, hblen, hbget⟩ := uninitialized_copy_n_spec s.data_.buffer_ s.size_ 0
    (List.replicate s.size_ (none : Option T)) 0 hslot (by rw [List.length_replicate]; omega)
  refine ⟨⟨⟨b⟩, s.size_⟩, ?_, ⟨hs, ?_, ?_⟩, ?_, rfl⟩
  · simp only [Vector.copy, RawMemory.alloc, Vector.Size, hb]
  · rw [hblen, List.length_replicate]
    omega
  · intro i hi
    rw [hbget i, if_pos (by omega), Nat.zero_add, Nat.sub_zero, hget i hi]
  · show b.length = s.size_
    rw [hblen, List.length_replicate]

theorem destructor_ok {T : Type} (v : Vector T) (xs : List T) (h : v.Rep xs) :
    v.destructor = .ok () := by
  obtain ⟨old, hold, -, -⟩ := destroy_n_spec v.size_ 0 v.data_.buffer_ (rep_slot h)
  simp only [Vector.destructor, hold]

theorem copyAssign_rep_larger {T : Type} (d s : Vector T) (ys xs : List T)
    (hd : d.Rep ys) (hs : s.Rep xs) (hgt : s.Size > d.Capacity) :
    ∃ w, d.copyAssign s = .ok (w, s) ∧ w.Rep xs ∧ w.Capacity = s.Size := by
  obtain ⟨w, hw, hrep, hcap, -⟩ := copy_rep s xs hs
  have hdes : (d.Swap w).2.destructor = .ok () := destructor_ok _ ys hd
  refine ⟨w, ?_, hrep, hcap⟩
  have hgt' : s.size_ > d.data_.Capacity := hgt
  simp only [Vector.copyAssign, if_pos hgt', hw, hdes]
  rfl

theorem copyAssign_rep_shorter {T : Type} (d s : Vector T) (ys xs : List T)
    (hd : d.Rep ys) (hs : s.Rep xs) (hle : s.Size ≤ d.Size) :
    ∃ w, d.copyAssign s = .ok (w, s) ∧ w.Rep xs ∧ w.Capacity = d.Capacity := by
  have hle' : s.size_ ≤ d.size_ := hle
  have hdlive : ∀ i, i < d.size_ → ∃ y, d.data_.buffer_[i]? = some (some y) :=
    fun i hi => rep_live hd i (by rw [← hd.1]; exact hi)
  have hsslot := rep_slot hs
  have hdcap : d.size_ ≤ d.data_.buffer_.length := by rw [hd.1]; exact hd.2.1
  obtain ⟨hss, hscap, hsget⟩ := hs
  obtain ⟨b, hb, hblen, hbget⟩ := copy_n_spec s.data_.buffer_ s.size_ 0 d.data_.buffer_ 0
    hsslot (fun k hk => by rw [Nat.zero_add]; exact hdlive k (by omega))
  have hnot : ¬ s.size_ > d.data_.Capacity := by
    show ¬ s.size_ > d.data_.buffer_.length
    omega
  have hi : (if d.size_ < s.size_ then d.size_ else s.size_) = s.size_ :=
    if_neg (by omega)
  have hbfront : ∀ i, i < xs.length → b[i]? = some xs[i]? := by
    intro i hi
    rw [hbget i, if_pos (by omega), Nat.zero_add, Nat.sub_zero, hsget i hi]
  by_cases hlt : s.size_ < d.size_
  · obtain ⟨b2, hb2, hb2len, hb2get⟩ := destroy_n_spec (d.size_ - s.size_) s.size_ b
      (fun k hk => by
        rw [hbget, if_neg (by omega)]
        exact hdlive _ (by omega))
    refine ⟨⟨⟨b2⟩, s.size_⟩, ?_, ⟨hss, ?_, ?_⟩, ?_⟩
    · simp only [Vector.copyAssign, if_neg hnot, hi, hb, if_neg (show ¬ d.size_ < s.size_ by omega),
        gt_iff_lt, if_pos hlt, hb2]
    · rw [hb2len, hblen]; omega
    · intro i hi
      rw [hb2get i, if_neg (by omega), hbfront i hi]
    · show b2.length = d.data_.buffer_.length
      rw [hb2len, hblen]
  · refine ⟨⟨⟨b⟩, s.size_⟩, ?_, ⟨hss, ?_, hbfront⟩, ?_⟩
    · simp only [Vector.copyAssign, if_neg hnot, hi, hb, if_neg (show ¬ d.size_ < s.size_ by omega),
        gt_iff_lt, if_neg hlt]
    · rw [hblen]; omega
    · show b.length = d.data_.buffer_.length
      exact hblen

/-! ## Further claims settled on the operations -/

theorem destroy_at_ne_assertion {T : Type} (buf : List (Option T)) (i : Nat) :
    destroy_at buf i ≠ .error .assertion := by
  unfold destroy_at
  split <;> simp

theorem holds_subscript_lt {T : Type} {v : Vector T} {xs : List T} (h : v.Holds xs) (i : Nat)
    (hi : i < xs.length) : ∃ x, xs[i]? = some x ∧ v.subscript i = .ok x :=
  ⟨xs[i], List.getElem?_eq_getElem hi, holds_subscript h i xs[i] (List.getElem?_eq_getElem hi)⟩

/-- C11: on a Vector holding `xs`, `Resize(n)` with `n < Size()` succeeds, yields
`Size() == n`, leaves the elements of indices `[0, n)` as they were and leaves the capacity
unchanged. -/
theorem Resize_shrinks {T : Type} [ElementTraits T] [Inhabited T] (v : Vector T) (xs : List T)
    (n : Nat) (hv : v.Holds xs) (hn : n < v.Size) :
    ∃ w, v.Resize n = .ok w ∧ w.Size = n ∧ w.Holds (xs.take n) ∧
      (∀ i, i < n → w.subscript i = v.subscript i) ∧ w.Capacity = v.Capacity := by
  have hn' : n < xs.length := by rw [← hv.1]; exact hn
  obtain ⟨w, hw, hrep, hcap⟩ := Resize_shrink_rep v xs n ((holds_iff_rep v xs).1 hv) hn'
  have hwh := (holds_iff_rep w _).2 hrep
  refine ⟨w, hw, ?_, hwh, fun i hi => ?_, hcap⟩
  · rw [hwh.1, List.length_take, Nat.min_eq_left (by omega)]
  · obtain ⟨x, hx, hvx⟩ := holds_subscript_lt hv i (by omega)
    rw [hvx, holds_subscript hwh i x (by rw [List.getElem?_take_of_lt hi]; exact hx)]

/-- Witness of C11: `[1, 9, 2, 3]` resized to 2. -/
theorem Resize_shrinks_witness :
    (⟨⟨[some 1, some 9, some 2, some 3]⟩, 4⟩ : Vector Nat).Holds [1, 9, 2, 3] ∧
    2 < (⟨⟨[some 1, some 9, some 2, some 3]⟩, 4⟩ : Vector Nat).Size ∧
    ∃ w, (⟨⟨[some 1, some 9, some 2, some 3]⟩, 4⟩ : Vector Nat).Resize 2 = .ok w ∧ w.Size = 2 ∧
      w.Holds ([1, 9, 2, 3].take 2) ∧
      (∀ i, i < 2 → w.subscript i =
        (⟨⟨[some 1, some 9, some 2, some 3]⟩, 4⟩ : Vector Nat).subscript i) ∧
      w.Capacity = (⟨⟨[some 1, some 9, some 2, some 3]⟩, 4⟩ : Vector Nat).Capacity :=
  ⟨by decide, by decide,
    Resize_shrinks ⟨⟨[some 1, some 9, some 2, some 3]⟩, 4⟩ [1, 9, 2, 3] 2 (by decide) (by decide)⟩

/-- C12 (counterexample): for 4-byte elements `Resize(2^62)` on the Vector `[1, 2]` asks
`Reserve` for an allocation whose byte count wraps to 0 in `size_t`: the call does not end
with size `2^62`. -/
theorem Resize_wrapped_byte_count :
    (⟨⟨[some 1, some 2]⟩, 2⟩ : Vector Nat).Holds [1, 2] ∧
    (⟨⟨[some 1, some 2]⟩, 2⟩ : Vector Nat).Size < 4611686018427387904 ∧
    (⟨⟨[some 1, some 2]⟩, 2⟩ : Vector Nat).Resize 4611686018427387904 =
      .error .underAllocated ∧
    ¬ ∃ w, (⟨⟨[some 1, some 2]⟩, 2⟩ : Vector Nat).Resize 4611686018427387904 = .ok w := by
  have h : (⟨⟨[some 1, some 2]⟩, 2⟩ : Vector Nat).Resize 4611686018427387904 =
      .error .underAllocated := by decide
  refine ⟨by decide, by decide, h, ?_⟩
  rintro ⟨w, hw⟩
  rw [h] at hw
  cases hw

/-- C12 (amended): when `n <= Capacity()` or the byte count `n * sizeof(T)` does not wrap in
`size_t`, `Resize(n)` with `n > Size()` on a Vector holding `xs` succeeds, yields
`Size() == n`, keeps the old elements, makes every element of indices `[old size, n)` the
default value and ends with `Capacity() == max(old capacity, n)`. -/
theorem Resize_grows {T : Type} [ElementTraits T] [Inhabited T] (v : Vector T) (xs : List T)
    (n : Nat) (hv : v.Holds xs) (hn : v.Size < n)
    (hfit : n ≤ v.Capacity ∨ n * ElementTraits.sizeof T ≤ SIZE_MAX) :
    ∃ w, v.Resize n = .ok w ∧ w.Size = n ∧
      w.Holds (xs ++ List.replicate (n - v.Size) default) ∧
      (∀ i, i < v.Size → w.subscript i = v.subscript i) ∧
      (∀ i, v.Size ≤ i → i < n → w.subscript i = .ok default) ∧
      w.Capacity = max v.Capacity n := by
  have hsz : v.Size = xs.length := hv.1
  have hn' : xs.length < n := by rw [← hsz]; exact hn
  obtain ⟨w, hw, hrep, hcap⟩ := Resize_grow_rep v xs n ((holds_iff_rep v xs).1 hv) hn' hfit
  have hwh := (holds_iff_rep w _).2 hrep
  rw [hsz]
  refine ⟨w, hw, ?_, hwh, fun i hi => ?_, fun i hi1 hi2 => ?_, hcap⟩
  · rw [hwh.1, List.length_append, List.length_replicate]
    omega
  · obtain ⟨x, hx, hvx⟩ := holds_subscript_lt hv i hi
    rw [hvx, holds_subscript hwh i x (by rw [List.getElem?_append_left hi]; exact hx)]
  · exact holds_subscript hwh i default
      (by rw [List.getElem?_append_right hi1, List.getElem?_replicate_of_lt (by omega)])

/-- Witness of C12 (amended): `[1, 2]` of capacity 2 resized to 4. -/
theorem Resize_grows_witness :
    (⟨⟨[some 1, some 2]⟩, 2⟩ : Vector Nat).Holds [1, 2] ∧
    (⟨⟨[some 1, some 2]⟩, 2⟩ : Vector Nat).Size < 4 ∧
    (4 ≤ (⟨⟨[some 1, some 2]⟩, 2⟩ : Vector Nat).Capacity ∨
      4 * ElementTraits.sizeof Nat ≤ SIZE_MAX) ∧
    ∃ w, (⟨⟨[some 1, some 2]⟩, 2⟩ : Vector Nat).Resize 4 = .ok w ∧ w.Size = 4 ∧
      w.Holds ([1, 2] ++ List.replicate (4 - (⟨⟨[some 1, some 2]⟩, 2⟩ : Vector Nat).Size) default) ∧
      (∀ i, i < (⟨⟨[some 1, some 2]⟩, 2⟩ : Vector Nat).Size →
        w.subscript i = (⟨⟨[some 1, some 2]⟩, 2⟩ : Vector Nat).subscript i) ∧
      (∀ i, (⟨⟨[some 1, some 2]⟩, 2⟩ : Vector Nat).Size ≤ i → i < 4 →
        w.subscript i = .ok default) ∧
      w.Capacity = max (⟨⟨[some 1, some 2]⟩, 2⟩ : Vector Nat).Capacity 4 :=
  ⟨by decide, by decide, by decide,
    Resize_grows ⟨⟨[some 1, some 2]⟩, 2⟩ [1, 2] 4 (by decide) (by decide) (by decide)⟩

/-- C16: on a Vector holding `xs` with `Size() > 0`, `PopBack` succeeds, lowers the size by
exactly one, leaves the elements of indices `[0, size - 1)` and the capacity unchanged; on any
Vector its assertion fails exactly when `Size() == 0`. -/
theorem PopBack_removes_last {T : Type} (v : Vector T) (xs : List T)
    (hv : v.Holds xs) (hpos : 0 < v.Size) :
    ∃ w, v.PopBack = .ok w ∧ w.Size + 1 = v.Size ∧ w.Holds xs.dropLast ∧
      (∀ i, i + 1 < v.Size → w.subscript i = v.subscript i) ∧ w.Capacity = v.Capacity ∧
      ∀ u : Vector T, (u.PopBack = .error .assertion ↔ u.Size = 0) := by
  have hsz : v.Size = xs.length := hv.1
  obtain ⟨w, hw, hrep, hcap⟩ := PopBack_rep v xs ((holds_iff_rep v xs).1 hv) (by omega)
  have hwh := (holds_iff_rep w _).2 hrep
  refine ⟨w, hw, ?_, hwh, fun i hi => ?_, hcap, fun u => ?_⟩
  · rw [hwh.1, List.length_dropLast]; omega
  · obtain ⟨x, hx, hvx⟩ := holds_subscript_lt hv i (by omega)
    rw [hvx, holds_subscript hwh i x
      (by rw [List.getElem?_dropLast, if_pos (by omega)]; exact hx)]
  · unfold Vector.PopBack Vector.Size
    by_cases h0 : u.size_ = 0
    · simp [h0]
    · have hp : u.size_ > 0 := by omega
      rw [if_pos hp]
      constructor
      · intro h
        exfalso
        cases hd : destroy_at u.data_.buffer_ (u.size_ - 1) with
        | error e =>
          rw [hd] at h
          cases h
          exact destroy_at_ne_assertion _ _ hd
        | ok b =>
          rw [hd] at h
          cases h
      · intro h
        exact absurd h h0

/-- Witness of C16 on the scenario of the specification: `[1, 9, 3]`, `RemoveLast()`. -/
theorem PopBack_removes_last_witness :
    (⟨⟨[some 1, some 9, some 3, none]⟩, 3⟩ : Vector Nat).Holds [1, 9, 3] ∧
    0 < (⟨⟨[some 1, some 9, some 3, none]⟩, 3⟩ : Vector Nat).Size ∧
    ∃ w, (⟨⟨[some 1, some 9, some 3, none]⟩, 3⟩ : Vector Nat).PopBack = .ok w ∧
      w.Size + 1 = (⟨⟨[some 1, some 9, some 3, none]⟩, 3⟩ : Vector Nat).Size ∧
      w.Holds [1, 9, 3].dropLast ∧
      (∀ i, i + 1 < (⟨⟨[some 1, some 9, some 3, none]⟩, 3⟩ : Vector Nat).Size →
        w.subscript i = (⟨⟨[some 1, some 9, some 3, none]⟩, 3⟩ : Vector Nat).subscript i) ∧
      w.Capacity = (⟨⟨[some 1, some 9, some 3, none]⟩, 3⟩ : Vector Nat).Capacity ∧
      ∀ u : Vector Nat, (u.PopBack = .error .assertion ↔ u.Size = 0) :=
  ⟨by decide, by decide,
    PopBack_removes_last ⟨⟨[some 1, some 9, some 3, none]⟩, 3⟩ [1, 9, 3] (by decide) (by decide)⟩

/-- C17 (counterexample): for 4-byte integers `Vector(2^62)` asks `Allocate` for a byte
count that wraps to 0 in `size_t` and then constructs `2^62` elements: the constructor does
not end with a Vector of size and capacity `2^62`. -/
theorem ofSize_wrapped_byte_count :
    RawMemory.Allocate Int 4611686018427387904 = 0 ∧
    (Vector.ofSize 4611686018427387904 : Except Fault (Vector Int)) = .error .underAllocated ∧
    ¬ ∃ w, (Vector.ofSize 4611686018427387904 : Except Fault (Vector Int)) = .ok w := by
  have h : (Vector.ofSize 4611686018427387904 : Except Fault (Vector Int)) =
      .error .underAllocated := by decide
  refine ⟨by decide, h, ?_⟩
  rintro ⟨w, hw⟩
  rw [h] at hw
  cases hw

/-- C17 (amended): when the byte count `n * sizeof(T)` does not wrap in `size_t`,
`Vector(n)` succeeds with `Size() == n`, `Capacity() == n` and the default value at every
index below `n`; `Vector(5)` of integers is five zeros. -/
theorem ofSize_default_elements {T : Type} [ElementTraits T] [Inhabited T] (n : Nat)
    (hfit : n * ElementTraits.sizeof T ≤ SIZE_MAX) :
    ∃ w, (Vector.ofSize n : Except Fault (Vector T)) = .ok w ∧ w.Size = n ∧ w.Capacity = n ∧
      (∀ i, i < n → w.subscript i = .ok default) ∧
      (Vector.ofSize 5 : Except Fault (Vector Int)) =
        .ok ⟨⟨[some 0, some 0, some 0, some 0, some 0]⟩, 5⟩ := by
  obtain ⟨w, hw, hrep, hcap⟩ := ofSize_rep (T := T) n hfit
  have hwh := (holds_iff_rep w _).2 hrep
  refine ⟨w, hw, ?_, hcap, fun i hi => ?_, by decide⟩
  · rw [hwh.1, List.length_replicate]
  · exact holds_subscript hwh i default (List.getElem?_replicate_of_lt hi)

/-- Witness of C17 (amended): `Vector(5)` of integers. -/
theorem ofSize_default_elements_witness :
    5 * ElementTraits.sizeof Int ≤ SIZE_MAX ∧
    ∃ w, (Vector.ofSize 5 : Except Fault (Vector Int)) = .ok w ∧ w.Size = 5 ∧
      w.Capacity = 5 ∧ (∀ i, i < 5 → w.subscript i = .ok default) ∧
      (Vector.ofSize 5 : Except Fault (Vector Int)) =
        .ok ⟨⟨[some 0, some 0, some 0, some 0, some 0]⟩, 5⟩ :=
  ⟨by decide, ofSize_default_elements 5 (by decide)⟩

/-- C18: move-construction gives the new Vector the size, elements and capacity of the
source and leaves the source with size 0 and capacity 0. -/
theorem moveConstruct_steals {T : Type} (s : Vector T) :
    (Vector.moveConstruct s).1.Size = s.Size ∧
    (∀ i, (Vector.moveConstruct s).1.subscript i = s.subscript i) ∧
    (Vector.moveConstruct s).1.Capacity = s.Capacity ∧
    (Vector.moveConstruct s).2.Size = 0 ∧ (Vector.moveConstruct s).2.Capacity = 0 :=
  ⟨rfl, fun _ => rfl, rfl, rfl, rfl⟩

/-- C20: with `d` holding `ys` and `s` holding `xs`, when `s.Size() <= d.Size()` or
`s.Size() > d.Capacity()` the copy-assignment `d = s` succeeds, leaves `s` as it was and `d`
holding `xs`; in the first case the capacity of `d` is unchanged, in the second it becomes
`s.Size()`. -/
theorem copyAssign_outer_cases {T : Type} (d s : Vector T) (ys xs : List T)
    (hd : d.Holds ys) (hs : s.Holds xs) (hcase : s.Size ≤ d.Size ∨ s.Size > d.Capacity) :
    ∃ w, d.copyAssign s = .ok (w, s) ∧ w.Size = s.Size ∧
      (∀ i, i < s.Size → w.subscript i = s.subscript i) ∧ w.Holds xs ∧
      (s.Size ≤ d.Size → w.Capacity = d.Capacity) ∧
      (s.Size > d.Capacity → w.Capacity = s.Size) := by
  have hd' := (holds_iff_rep d ys).1 hd
  have hs' := (holds_iff_rep s xs).1 hs
  have hdle : d.Size ≤ d.Capacity := hd.2.1
  have key : ∃ w, d.copyAssign s = .ok (w, s) ∧ w.Rep xs ∧
      (s.Size ≤ d.Size → w.Capacity = d.Capacity) ∧
      (s.Size > d.Capacity → w.Capacity = s.Size) := by
    rcases hcase with hle | hgt
    · obtain ⟨w, hw, hrep, hcap⟩ := copyAssign_rep_shorter d s ys xs hd' hs' hle
      exact ⟨w, hw, hrep, fun _ => hcap, fun hgt => by omega⟩
    · obtain ⟨w, hw, hrep, hcap⟩ := copyAssign_rep_larger d s ys xs hd' hs' hgt
      exact ⟨w, hw, hrep, fun hle => by omega, fun _ => hcap⟩
  obtain ⟨w, hw, hrep, h1, h2⟩ := key
  have hwh := (holds_iff_rep w xs).2 hrep
  refine ⟨w, hw, by rw [hwh.1, hs.1], fun i hi => ?_, hwh, h1, h2⟩
  obtain ⟨x, hx, hsx⟩ := holds_subscript_lt hs i (by rw [← hs.1]; exact hi)
  rw [hsx, holds_subscript hwh i x hx]

/-- Witness of C20: `d = [9, 8, 7]` assigned from the shorter `s = [1, 2]`. -/
theorem copyAssign_outer_cases_witness :
    (⟨⟨[some 9, some 8, some 7]⟩, 3⟩ : Vector Nat).Holds [9, 8, 7] ∧
    (⟨⟨[some 1, some 2]⟩, 2⟩ : Vector Nat).Holds [1, 2] ∧
    ((⟨⟨[some 1, some 2]⟩, 2⟩ : Vector Nat).Size ≤
        (⟨⟨[some 9, some 8, some 7]⟩, 3⟩ : Vector Nat).Size ∨
      (⟨⟨[some 1, some 2]⟩, 2⟩ : Vector Nat).Size >
        (⟨⟨[some 9, some 8, some 7]⟩, 3⟩ : Vector Nat).Capacity) ∧
    ∃ w, (⟨⟨[some 9, some 8, some 7]⟩, 3⟩ : Vector Nat).copyAssign ⟨⟨[some 1, some 2]⟩, 2⟩ =
        .ok (w, ⟨⟨[some 1, some 2]⟩, 2⟩) ∧
      w.Size = (⟨⟨[some 1, some 2]⟩, 2⟩ : Vector Nat).Size ∧
      (∀ i, i < (⟨⟨[some 1, some 2]⟩, 2⟩ : Vector Nat).Size →
        w.subscript i = (⟨⟨[some 1, some 2]⟩, 2⟩ : Vector Nat).subscript i) ∧
      w.Holds [1, 2] ∧
      ((⟨⟨[some 1, some 2]⟩, 2⟩ : Vector Nat).Size ≤
          (⟨⟨[some 9, some 8, some 7]⟩, 3⟩ : Vector Nat).Size →
        w.Capacity = (⟨⟨[some 9, some 8, some 7]⟩, 3⟩ : Vector Nat).Capacity) ∧
      ((⟨⟨[some 1, some 2]⟩, 2⟩ : Vector Nat).Size >
          (⟨⟨[some 9, some 8, some 7]⟩, 3⟩ : Vector Nat).Capacity →
        w.Capacity = (⟨⟨[some 1, some 2]⟩, 2⟩ : Vector Nat).Size) :=
  ⟨by decide, by decide, by decide,
    copyAssign_outer_cases ⟨⟨[some 9, some 8, some 7]⟩, 3⟩ ⟨⟨[some 1, some 2]⟩, 2⟩ [9, 8, 7] [1, 2]
      (by decide) (by decide) (by decide)⟩

/-- C13 (the code departs from the claim): the Vector `[1]` of capacity 1 satisfies
`Size() <= Capacity()`; `Emplace` at `p == Size()`, inside its precondition, leaves
`Size() == 3` with `Capacity() == 2`. -/
theorem Emplace_at_end_breaks_size_bound :
    (⟨⟨[some 1]⟩, 1⟩ : Vector Nat).Size ≤ (⟨⟨[some 1]⟩, 1⟩ : Vector Nat).Capacity ∧
    (⟨⟨[some 1]⟩, 1⟩ : Vector Nat).Emplace 1 7 = .ok (⟨⟨[some 1, some 7]⟩, 3⟩, 1) ∧
    ¬ ((⟨⟨[some 1, some 7]⟩, 3⟩ : Vector Nat).Size ≤
        (⟨⟨[some 1, some 7]⟩, 3⟩ : Vector Nat).Capacity) := by
  decide

/-! ## Which faults the primitives can report -/

theorem load_ne_assertion {T : Type} (buf : List (Option T)) (i : Nat) :
    load buf i ≠ .error .assertion := by
  unfold load
  split <;> simp

theorem construct_at_ne_assertion {T : Type} (buf : List (Option T)) (i : Nat) (x : T) :
    construct_at buf i x ≠ .error .assertion := by
  unfold construct_at
  split <;> simp

theorem assign_at_ne_assertion {T : Type} (buf : List (Option T)) (i : Nat) (x : T) :
    assign_at buf i x ≠ .error .assertion := by
  unfold assign_at
  split <;> simp

theorem construct_at_length {T : Type} {buf b : List (Option T)} {i : Nat} {x : T}
    (h : construct_at buf i x = .ok b) : b.length = buf.length := by
  unfold construct_at at h
  split at h
  · cases h; rw [List.length_set]
  · cases h

theorem assign_at_length {T : Type} {buf b : List (Option T)} {i : Nat} {x : T}
    (h : assign_at buf i x = .ok b) : b.length = buf.length := by
  unfold assign_at at h
  split at h
  · cases h
  · cases h
  · cases h; rw [List.length_set]

theorem destroy_n_ne_assertion {T : Type} :
    ∀ (n first : Nat) (buf : List (Option T)), destroy_n buf first n ≠ .error .assertion := by
  intro n
  induction n with
  | zero => intro first buf; simp [destroy_n]
  | succ n ih =>
    intro first buf
    simp only [destroy_n]
    cases hd : destroy_at buf first with
    | error e =>
      intro h
      cases h
      exact destroy_at_ne_assertion _ _ hd
    | ok b => exact ih _ _

theorem uninitialized_copy_n_ne_assertion {T : Type} (src : List (Option T)) :
    ∀ (n first : Nat) (dst : List (Option T)) (d_first : Nat),
      uninitialized_copy_n src first n dst d_first ≠ .error .assertion := by
  intro n
  induction n with
  | zero => intro first dst d_first; simp [uninitialized_copy_n]
  | succ n ih =>
    intro first dst d_first
    cases hl : load src first with
    | error e =>
      simp only [uninitialized_copy_n, hl]
      intro h
      cases h
      exact load_ne_assertion _ _ hl
    | ok x =>
      cases hc : construct_at dst d_first x with
      | error e =>
        simp only [uninitialized_copy_n, hl, hc]
        intro h
        cases h
        exact construct_at_ne_assertion _ _ _ hc
      | ok d =>
        simp only [uninitialized_copy_n, hl, hc]
        exact ih _ _ _

theorem relocate_n_ne_assertion {T : Type} [ElementTraits T] (src : List (Option T))
    (first n : Nat) (dst : List (Option T)) (d_first : Nat) :
    relocate_n src first n dst d_first ≠ .error .assertion := by
  rw [relocate_n_eq]
  exact uninitialized_copy_n_ne_assertion src n first dst d_first

theorem move_loop_ne_assertion {T : Type} :
    ∀ (n first d_first : Nat) (buf : List (Option T)),
      move_loop buf first n d_first ≠ .error .assertion := by
  intro n
  induction n with
  | zero => intro first d_first buf; simp [move_loop]
  | succ n ih =>
    intro first d_first buf
    cases hl : load buf first with
    | error e =>
      simp only [move_loop, hl]
      intro h
      cases h
      exact load_ne_assertion _ _ hl
    | ok x =>
      cases hc : assign_at buf d_first x with
      | error e =>
        simp only [move_loop, hl, hc]
        intro h
        cases h
        exact assign_at_ne_assertion _ _ _ hc
      | ok d =>
        simp only [move_loop, hl, hc]
        exact ih _ _ _

theorem move_range_ne_assertion {T : Type} (buf : List (Option T)) (first last d_first : Nat) :
    move_range buf first last d_first ≠ .error .assertion := by
  unfold move_range
  split
  · simp
  · exact move_loop_ne_assertion _ _ _ _

theorem move_backward_loop_ne_assertion {T : Type} :
    ∀ (n last d_last : Nat) (buf : List (Option T)),
      move_backward_loop buf last n d_last ≠ .error .assertion := by
  intro n
  induction n with
  | zero => intro last d_last buf; simp [move_backward_loop]
  | succ n ih =>
    intro last d_last buf
    by_cases h0 : last = 0 ∨ d_last = 0
    · simp [move_backward_loop, h0]
    · cases hl : load buf (last - 1) with
      | error e =>
        simp only [move_backward_loop, if_neg h0, hl]
        intro h
        cases h
        exact load_ne_assertion _ _ hl
      | ok x =>
        cases hc : assign_at buf (d_last - 1) x with
        | error e =>
          simp only [move_backward_loop, if_neg h0, hl, hc]
          intro h
          cases h
          exact assign_at_ne_assertion _ _ _ hc
        | ok d =>
          simp only [move_backward_loop, if_neg h0, hl, hc]
          exact ih _ _ _

theorem move_backward_loop_length {T : Type} :
    ∀ (n last d_last : Nat) (buf b : List (Option T)),
      move_backward_loop buf last n d_last = .ok b → b.length = buf.length := by
  intro n
  induction n with
  | zero =>
    intro last d_last buf b h
    simp only [move_backward_loop] at h
    cases h
    rfl
  | succ n ih =>
    intro last d_last buf b h
    by_cases h0 : last = 0 ∨ d_last = 0
    · simp only [move_backward_loop, if_pos h0] at h
      cases h
    · cases hl : load buf (last - 1) with
      | error e =>
        simp only [move_backward_loop, if_neg h0, hl] at h
        cases h
      | ok x =>
        cases hc : assign_at buf (d_last - 1) x with
        | error e =>
          simp only [move_backward_loop, if_neg h0, hl, hc] at h
          cases h
        | ok d =>
          simp only [move_backward_loop, if_neg h0, hl, hc] at h
          rw [ih _ _ _ _ h, assign_at_length hc]

theorem move_backward_ne_assertion {T : Type} (buf : List (Option T)) (first last d_last : Nat) :
    move_backward buf first last d_last ≠ .error .assertion := by
  unfold move_backward
  split
  · simp
  · exact move_backward_loop_ne_assertion _ _ _ _

theorem move_backward_length {T : Type} {buf b : List (Option T)} {first last d_last : Nat}
    (h : move_backward buf first last d_last = .ok b) : b.length = buf.length := by
  unfold move_backward at h
  split at h
  · cases h
  · exact move_backward_loop_length _ _ _ _ _ h

theorem InsertInVector_ne_assertion {T : Type} [ElementTraits T] (v : Vector T) (x : T)
    (hv : v.Size ≤ v.Capacity) : v.InsertInVector x ≠ .error .assertion := by
  have hv' : v.size_ ≤ v.data_.buffer_.length := hv
  by_cases hfull : v.size_ = v.data_.buffer_.length
  · have hc : v.size_ ≤ (if v.size_ = 0 then 1 else v.size_ * 2) := by split <;> omega
    cases h1 : construct_at (List.replicate (if v.size_ = 0 then 1 else v.size_ * 2)
        (none : Option T)) v.size_ x with
    | error e =>
      simp only [Vector.InsertInVector, RawMemory.Capacity, if_pos hfull, RawMemory.alloc,
        RawMemory.plus, List.length_replicate, if_pos hc, h1]
      intro h; cases h
      exact construct_at_ne_assertion _ _ _ h1
    | ok b1 =>
      cases h2 : relocate_n v.data_.buffer_ 0 v.size_ b1 0 with
      | error e =>
        simp only [Vector.InsertInVector, RawMemory.Capacity, if_pos hfull, RawMemory.alloc,
          RawMemory.plus, List.length_replicate, if_pos hc, h1, h2]
        intro h; cases h
        exact relocate_n_ne_assertion _ _ _ _ _ h2
      | ok b2 =>
        cases h3 : destroy_n v.data_.buffer_ 0 v.size_ with
        | error e =>
          simp only [Vector.InsertInVector, RawMemory.Capacity, if_pos hfull, RawMemory.alloc,
            RawMemory.plus, List.length_replicate, if_pos hc, h1, h2, h3]
          intro h; cases h
          exact destroy_n_ne_assertion _ _ _ h3
        | ok old =>
          simp only [Vector.InsertInVector, RawMemory.Capacity, if_pos hfull, RawMemory.alloc,
            RawMemory.plus, List.length_replicate, if_pos hc, h1, h2, h3]
          intro h; cases h
  · cases h1 : construct_at v.data_.buffer_ v.size_ x with
    | error e =>
      simp only [Vector.InsertInVector, RawMemory.Capacity, if_neg hfull, RawMemory.plus,
        if_pos hv', h1]
      intro h; cases h
      exact construct_at_ne_assertion _ _ _ h1
    | ok b =>
      simp only [Vector.InsertInVector, RawMemory.Capacity, if_neg hfull, RawMemory.plus,
        if_pos hv', h1]
      intro h; cases h

theorem PushBack_ne_assertion {T : Type} [ElementTraits T] (v : Vector T) (x : T)
    (hv : v.Size ≤ v.Capacity) : v.PushBack x ≠ .error .assertion := by
  cases h1 : v.InsertInVector x with
  | error e =>
    simp only [Vector.PushBack, h1]
    intro h; cases h
    exact InsertInVector_ne_assertion v x hv h1
  | ok r =>
    simp only [Vector.PushBack, h1]
    intro h; cases h

theorem subscript_ne_assertion {T : Type} (v : Vector T) (i : Nat)
    (hv : v.Size ≤ v.Capacity) (hi : i < v.Size) : v.subscript i ≠ .error .assertion := by
  have hi' : i < v.size_ := hi
  have hc : i < v.data_.Capacity := Nat.lt_of_lt_of_le hi hv
  simp only [Vector.subscript, if_pos hi', RawMemory.subscript, if_pos hc]
  exact load_ne_assertion _ _

theorem Erase_ne_assertion {T : Type} (v : Vector T) (p : Nat) (hp : p < v.Size) :
    v.Erase p ≠ .error .assertion := by
  have hpos : v.size_ > 0 := by
    have : p < v.size_ := hp
    omega
  cases h1 : (if p + 1 < v.size_ then move_range v.data_.buffer_ (p + 1) v.size_ p
      else Except.ok v.data_.buffer_) with
  | error e =>
    simp only [Vector.Erase, h1]
    intro h; cases h
    split at h1
    · exact move_range_ne_assertion _ _ _ _ h1
    · cases h1
  | ok b =>
    cases h2 : destroy_at b (v.size_ - 1) with
    | error e =>
      simp only [Vector.Erase, h1, Vector.PopBack, if_pos hpos, h2]
      intro h; cases h
      exact destroy_at_ne_assertion _ _ h2
    | ok b2 =>
      simp only [Vector.Erase, h1, Vector.PopBack, if_pos hpos, h2]
      intro h; cases h

theorem Emplace_ne_assertion {T : Type} [ElementTraits T] (v : Vector T) (p : Nat) (x : T)
    (hv : v.Size ≤ v.Capacity) (hp : p ≤ v.Size) : v.Emplace p x ≠ .error .assertion := by
  have hv' : v.size_ ≤ v.data_.buffer_.length := hv
  have hp' : p ≤ v.size_ := hp
  by_cases hend : v.size_ = p
  · cases h1 : v.InsertInVector x with
    | error e =>
      simp only [Vector.Emplace, if_pos hend, Vector.EmplaceBack, h1]
      intro h; cases h
      exact InsertInVector_ne_assertion v x hv h1
    | ok r =>
      simp only [Vector.Emplace, if_pos hend, Vector.EmplaceBack, h1]
      intro h; cases h
  · have hnz : ¬ v.size_ = 0 := by omega
    by_cases hspare : v.size_ < v.data_.buffer_.length
    · have hlast : v.size_ - 1 < v.data_.buffer_.length := by omega
      cases h1 : load v.data_.buffer_ (v.size_ - 1) with
      | error e =>
        simp only [Vector.Emplace, if_neg hend, Vector.Capacity, RawMemory.Capacity,
          if_pos hspare, if_neg hnz, RawMemory.subscript, if_pos hlast, h1]
        intro h; cases h
        exact load_ne_assertion _ _ h1
      | ok y =>
        cases h2 : construct_at v.data_.buffer_ v.size_ y with
        | error e =>
          simp only [Vector.Emplace, if_neg hend, Vector.Capacity, RawMemory.Capacity,
            if_pos hspare, if_neg hnz, RawMemory.subscript, if_pos hlast, h1, RawMemory.plus,
            if_pos hv', h2]
          intro h; cases h
          exact construct_at_ne_assertion _ _ _ h2
        | ok b1 =>
          cases h3 : move_backward b1 p (v.size_ - 1) v.size_ with
          | error e =>
            simp only [Vector.Emplace, if_neg hend, Vector.Capacity, RawMemory.Capacity,
              if_pos hspare, if_neg hnz, RawMemory.subscript, if_pos hlast, h1, RawMemory.plus,
              if_pos hv', h2, h3]
            intro h; cases h
            exact move_backward_ne_assertion _ _ _ _ h3
          | ok b2 =>
            have hpl : p < b2.length := by
              rw [move_backward_length h3, construct_at_length h2]; omega
            cases h4 : assign_at b2 p x with
            | error e =>
              simp only [Vector.Emplace, if_neg hend, Vector.Capacity, RawMemory.Capacity,
                if_pos hspare, if_neg hnz, RawMemory.subscript, if_pos hlast, h1, RawMemory.plus,
                if_pos hv', h2, h3, if_pos hpl, h4]
              intro h; cases h
              exact assign_at_ne_assertion _ _ _ h4
            | ok b3 =>
              simp only [Vector.Emplace, if_neg hend, Vector.Capacity, RawMemory.Capacity,
                if_pos hspare, if_neg hnz, RawMemory.subscript, if_pos hlast, h1, RawMemory.plus,
                if_pos hv', h2, h3, if_pos hpl, h4]
              intro h; cases h
    · have hp2 : p ≤ v.size_ * 2 := by omega
      cases h1 : construct_at (List.replicate (v.size_ * 2) (none : Option T)) p x with
      | error e =>
        simp only [Vector.Emplace, if_neg hend, Vector.Capacity, RawMemory.Capacity,
          if_neg hspare, RawMemory.alloc, RawMemory.plus, List.length_replicate, if_pos hp2, h1]
        intro h; cases h
        exact construct_at_ne_assertion _ _ _ h1
      | ok b1 =>
        cases h2 : relocate_n v.data_.buffer_ 0 p b1 0 with
        | error e =>
          simp only [Vector.Emplace, if_neg hend, Vector.Capacity, RawMemory.Capacity,
            if_neg hspare, RawMemory.alloc, RawMemory.plus, List.length_replicate, if_pos hp2,
            h1, h2]
          intro h; cases h
          exact relocate_n_ne_assertion _ _ _ _ _ h2
        | ok b2 =>
          cases h3 : relocate_n v.data_.buffer_ p (v.size_ - p) b2 (p + 1) with
          | error e =>
            simp only [Vector.Emplace, if_neg hend, Vector.Capacity, RawMemory.Capacity,
              if_neg hspare, RawMemory.alloc, RawMemory.plus, List.length_replicate, if_pos hp2,
              h1, h2, h3]
            intro h; cases h
            exact relocate_n_ne_assertion _ _ _ _ _ h3
          | ok b3 =>
            cases h4 : destroy_n v.data_.buffer_ 0 v.size_ with
            | error e =>
              simp only [Vector.Emplace, if_neg hend, Vector.Capacity, RawMemory.Capacity,
                if_neg hspare, RawMemory.alloc, RawMemory.plus, List.length_replicate,
                if_pos hp2, h1, h2, h3, h4]
              intro h; cases h
              exact destroy_n_ne_assertion _ _ _ h4
            | ok old =>
              simp only [Vector.Emplace, if_neg hend, Vector.Capacity, RawMemory.Capacity,
                if_neg hspare, RawMemory.alloc, RawMemory.plus, List.length_replicate,
                if_pos hp2, h1, h2, h3, h4]
              intro h; cases h

/-- C19: on a Vector with `Size() <= Capacity()` none of the calls `PushBack`/`EmplaceBack`,
`Emplace`/`Insert` at `p <= Size()`, `Erase` at `p < Size()` and `operator[](i)` with
`i < Size()` stops on one of the assertions of `RawMemory` or `Vector`; when the Vector
holds a sequence `xs`, each of these calls runs to its end. -/
theorem no_assertion_fails {T : Type} [ElementTraits T] (v : Vector T) (x : T) (p i : Nat)
    (hv : v.Size ≤ v.Capacity) :
    v.PushBack x ≠ .error .assertion ∧ v.EmplaceBack x ≠ .error .assertion ∧
    (p ≤ v.Size → v.Emplace p x ≠ .error .assertion ∧ v.Insert p x ≠ .error .assertion) ∧
    (p < v.Size → v.Erase p ≠ .error .assertion) ∧
    (i < v.Size → v.subscript i ≠ .error .assertion) ∧
    ∀ xs : List T, v.Holds xs →
      (∃ w, v.PushBack x = .ok w) ∧ (∃ r, v.EmplaceBack x = .ok r) ∧
      (p ≤ v.Size → ∃ r, v.Emplace p x = .ok r ∧ v.Insert p x = .ok r) ∧
      (p < v.Size → ∃ r, v.Erase p = .ok r) ∧
      (i < v.Size → ∃ y, v.subscript i = .ok y) := by
  refine ⟨PushBack_ne_assertion v x hv, InsertInVector_ne_assertion v x hv,
    fun hp => ⟨Emplace_ne_assertion v p x hv hp, Emplace_ne_assertion v p x hv hp⟩,
    fun hp => Erase_ne_assertion v p hp, fun hi => subscript_ne_assertion v i hv hi,
    fun xs hx => ?_⟩
  have hrep := (holds_iff_rep v xs).1 hx
  have hsz : v.Size = xs.length := hx.1
  refine ⟨?_, ?_, fun hp => ?_, fun hp => ?_, fun hi => ?_⟩
  · obtain ⟨w, hw, -⟩ := PushBack_rep v xs x hrep
    exact ⟨w, hw⟩
  · obtain ⟨w, hw, -⟩ := InsertInVector_rep v xs x hrep
    exact ⟨_, hw⟩
  · by_cases hend : p = v.Size
    · obtain ⟨w, -, -, hw⟩ := Emplace_at_end v xs x hx
      rw [hend]
      exact ⟨_, hw, hw⟩
    · obtain ⟨w, hw, -⟩ := Emplace_rep v xs p x hrep (by omega)
      exact ⟨_, hw, hw⟩
  · obtain ⟨w, hw, -⟩ := Erase_rep v xs p hrep (by omega)
    exact ⟨_, hw⟩
  · obtain ⟨y, -, hy⟩ := holds_subscript_lt hx i (by omega)
    exact ⟨y, hy⟩

/-- Witness of C19 on the Vector `[1, 2, 3]` of capacity 4. -/
theorem no_assertion_fails_witness :
    (⟨⟨[some 1, some 2, some 3, none]⟩, 3⟩ : Vector Nat).Size ≤
      (⟨⟨[some 1, some 2, some 3, none]⟩, 3⟩ : Vector Nat).Capacity ∧
    (⟨⟨[some 1, some 2, some 3, none]⟩, 3⟩ : Vector Nat).Emplace 3 7 ≠ .error .assertion ∧
    (⟨⟨[some 1, some 2, some 3, none]⟩, 3⟩ : Vector Nat).Erase 2 ≠ .error .assertion :=
  ⟨by decide,
    ((no_assertion_fails (⟨⟨[some 1, some 2, some 3, none]⟩, 3⟩ : Vector Nat) 7 3 0
      (by decide)).2.2.1 (by decide)).1,
    (no_assertion_fails (⟨⟨[some 1, some 2, some 3, none]⟩, 3⟩ : Vector Nat) 7 2 0
      (by decide)).2.2.2.1 (by decide)⟩

/-! ## Element operations that may raise: the loops -/

theorem set_of_load {T : Type} {src : List (Option T)} {i : Nat} {x : T}
    (h : load src i = .ok x) : src.set i (some x) = src := by
  have hx := (load_eq_ok_iff src i x).1 h
  apply List.ext_getElem?
  intro j
  by_cases hj : j = i
  · subst hj
    have hlt : j < src.length := by
      by_contra hc
      rw [List.getElem?_eq_none (by omega)] at hx
      cases hx
    rw [List.getElem?_set_self hlt, hx]
  · rw [List.getElem?_set_ne (Ne.symm hj)]

theorem uninitialized_copy_n_ex_plain {T : Type} (src : List (Option T)) :
    ∀ (n first : Nat) (dst : List (Option T)) (d_first : Nat),
      uninitialized_copy_n_ex plainOps src first n dst d_first =
        match uninitialized_copy_n src first n dst d_first with
        | .error e => .error e
        | .ok r => .ok (.done r) := by
  intro n
  induction n with
  | zero => intro first dst d_first; rfl
  | succ n ih =>
    intro first dst d_first
    cases hl : load src first with
    | error e => simp only [uninitialized_copy_n_ex, uninitialized_copy_n, hl]
    | ok x =>
      cases hc : construct_at dst d_first x with
      | error e =>
        simp only [uninitialized_copy_n_ex, uninitialized_copy_n, hl, plainOps, hc]
      | ok d =>
        simp only [uninitialized_copy_n_ex, uninitialized_copy_n, hl, plainOps, hc]
        have := ih (first + 1) d (d_first + 1)
        simp only [plainOps] at this
        rw [this]
        cases uninitialized_copy_n src (first + 1) n d (d_first + 1) <;> rfl

theorem uninitialized_move_n_ex_plain {T : Type} :
    ∀ (n first : Nat) (src dst : List (Option T)) (d_first : Nat),
      uninitialized_move_n_ex plainOps src first n dst d_first =
        match uninitialized_move_n src first n dst d_first with
        | .error e => .error e
        | .ok r => .ok (.done (src, r)) := by
  intro n
  induction n with
  | zero => intro first src dst d_first; rfl
  | succ n ih =>
    intro first src dst d_first
    cases hl : load src first with
    | error e => simp only [uninitialized_move_n_ex, uninitialized_move_n, hl]
    | ok x =>
      cases hc : construct_at dst d_first x with
      | error e =>
        simp only [uninitialized_move_n_ex, uninitialized_move_n, hl, plainOps, hc]
      | ok d =>
        simp only [uninitialized_move_n_ex, uninitialized_move_n, hl, plainOps, hc,
          set_of_load hl]
        have := ih (first + 1) src d (d_first + 1)
        simp only [plainOps] at this
        rw [this]
        cases uninitialized_move_n src (first + 1) n d (d_first + 1) <;> rfl

theorem relocate_n_ex_plain {T : Type} [ElementTraits T] (src : List (Option T))
    (first n : Nat) (dst : List (Option T)) (d_first : Nat) :
    relocate_n_ex plainOps src first n dst d_first =
      match relocate_n src first n dst d_first with
      | .error e => .error e
      | .ok r => .ok (.done (src, r)) := by
  unfold relocate_n_ex relocate_n
  split
  · exact uninitialized_move_n_ex_plain n first src dst d_first
  · rw [uninitialized_copy_n_ex_plain]
    cases uninitialized_copy_n src first n dst d_first <;> rfl

theorem copy_n_ex_plain {T : Type} (src : List (Option T)) :
    ∀ (n first : Nat) (dst : List (Option T)) (d_first : Nat),
      copy_n_ex plainOps src first n dst d_first =
        match copy_n src first n dst d_first with
        | .error e => .error e
        | .ok r => .ok (.done r) := by
  intro n
  induction n with
  | zero => intro first dst d_first; rfl
  | succ n ih =>
    intro first dst d_first
    cases hl : load src first with
    | error e => simp only [copy_n_ex, copy_n, hl]
    | ok x =>
      have hih := ih (first + 1) (dst.set d_first (some x)) (d_first + 1)
      simp only [plainOps] at hih
      cases hg : dst[d_first]? with
      | none =>
        have h1 : load dst d_first = .error .outOfBounds := by simp only [load, hg]
        have h2 : assign_at dst d_first x = .error .outOfBounds := by simp only [assign_at, hg]
        simp only [copy_n_ex, copy_n, hl, h1, h2]
      | some o =>
        cases o with
        | none =>
          have h1 : load dst d_first = .error .notLive := by simp only [load, hg]
          have h2 : assign_at dst d_first x = .error .notLive := by simp only [assign_at, hg]
          simp only [copy_n_ex, copy_n, hl, h1, h2]
        | some t =>
          have h1 : load dst d_first = .ok t := by simp only [load, hg]
          have h2 : assign_at dst d_first x = .ok (dst.set d_first (some x)) := by
            simp only [assign_at, hg]
          simp only [copy_n_ex, copy_n, hl, h1, h2, plainOps]
          exact hih

/-- With element operations that never raise, `Reserve_ex` is `Reserve`. -/
theorem Reserve_ex_plain {T : Type} [ElementTraits T] (v : Vector T) (n : Nat) :
    v.Reserve_ex plainOps n =
      match v.Reserve n with
      | .error e => .error e
      | .ok w => .ok (.done w) := by
  unfold Vector.Reserve_ex Vector.Reserve
  split
  · cases (RawMemory.create n : Except Fault (RawMemory T)) with
    | error e => rfl
    | ok data_tmp =>
      simp only [relocate_n_ex_plain]
      cases relocate_n v.data_.buffer_ 0 v.size_ data_tmp.buffer_ 0 with
      | error e => rfl
      | ok b =>
        simp only []
        cases destroy_n v.data_.buffer_ 0 v.size_ <;> rfl
  · rfl

/-- With element operations that never raise, `copyAssign_ex` is `copyAssign`. -/
theorem copyAssign_ex_plain {T : Type} (d s : Vector T) :
    d.copyAssign_ex plainOps s =
      match d.copyAssign s with
      | .error e => .error e
      | .ok r => .ok (.done r.1) := by
  unfold Vector.copyAssign_ex Vector.copyAssign
  split
  · simp only [Vector.copy_ex, Vector.copy, uninitialized_copy_n_ex_plain]
    cases uninitialized_copy_n s.data_.buffer_ 0 s.Size (RawMemory.alloc s.size_).buffer_ 0 with
    | error e => rfl
    | ok b =>
      simp only []
      cases (d.Swap ⟨⟨b⟩, s.size_⟩).2.destructor <;> rfl
  · simp only [copy_n_ex_plain]
    cases copy_n s.data_.buffer_ 0 (if d.size_ < s.size_ then d.size_ else s.size_)
        d.data_.buffer_ 0 with
    | error e => rfl
    | ok b =>
      simp only []
      split
      · rw [uninitialized_copy_n_ex_plain]
        cases uninitialized_copy_n s.data_.buffer_ 0 (s.size_ - d.size_) b d.size_ <;> rfl
      · split
        · cases destroy_n b s.size_ (d.size_ - s.size_) <;> rfl
        · rfl

/-! ## The original claims on operations that may raise, at the inputs where they fail -/

theorem rep_size_le {T : Type} {v : Vector T} {xs : List T} (h : v.Rep xs) :
    v.Size ≤ v.Capacity := ((holds_iff_rep v xs).2 h).2.1

theorem copyAssign_size_bound {T : Type} (d s : Vector T) (ys xs : List T)
    (hd : d.Rep ys) (hs : s.Rep xs) :
    ∃ w, d.copyAssign s = .ok (w, s) ∧ w.Size ≤ w.Capacity := by
  by_cases hgt : s.Size > d.Capacity
  · obtain ⟨w, hw, hrep, -⟩ := copyAssign_rep_larger d s ys xs hd hs hgt
    exact ⟨w, hw, rep_size_le hrep⟩
  · by_cases hle : s.Size ≤ d.Size
    · obtain ⟨w, hw, hrep, -⟩ := copyAssign_rep_shorter d s ys xs hd hs hle
      exact ⟨w, hw, rep_size_le hrep⟩
    · -- the source is longer than `d` and fits in its capacity
      have hlt : d.size_ < s.size_ := by
        have : ¬ s.size_ ≤ d.size_ := hle
        omega
      have hfit : s.size_ ≤ d.data_.buffer_.length := by
        have : ¬ s.size_ > d.data_.buffer_.length := hgt
        omega
      have hdlive : ∀ i, i < d.size_ → ∃ y, d.data_.buffer_[i]? = some (some y) :=
        fun i hi => rep_live hd i (by rw [← hd.1]; exact hi)
      have hsslot := rep_slot hs
      obtain ⟨b, hb, hblen, -⟩ := copy_n_spec s.data_.buffer_ d.size_ 0 d.data_.buffer_ 0
        (fun k hk => hsslot k (by omega))
        (fun k hk => by rw [Nat.zero_add]; exact hdlive k hk)
      obtain ⟨b2, hb2, hb2len, -⟩ := uninitialized_copy_n_spec s.data_.buffer_
        (s.size_ - d.size_) 0 b d.size_ (fun k hk => hsslot k (by omega))
        (by rw [hblen]; omega)
      refine ⟨⟨⟨b2⟩, s.size_⟩, ?_, ?_⟩
      · have hnot : ¬ s.size_ > d.data_.Capacity := hgt
        simp only [Vector.copyAssign, if_neg hnot, if_pos hlt, hb, hb2]
      · show s.size_ ≤ b2.length
        rw [hb2len, hblen]
        exact hfit

/-- The size bound away from the insertion at the end: the constructors and every public
operation other than `Emplace`/`Insert` at `p == Size()` end with `Size() <= Capacity()` on
Vectors that hold a sequence. -/
theorem size_bound_elsewhere {T : Type} [ElementTraits T] [Inhabited T] (v s : Vector T)
    (xs zs : List T) (x : T) (n p : Nat) (hv : v.Holds xs) (hs : s.Holds zs)
    (hfit : n * ElementTraits.sizeof T ≤ SIZE_MAX) :
    (Vector.empty : Vector T).Size ≤ (Vector.empty : Vector T).Capacity ∧
    (∃ w, (Vector.ofSize n : Except Fault (Vector T)) = .ok w ∧ w.Size ≤ w.Capacity) ∧
    (∃ w, s.copy = .ok w ∧ w.Size ≤ w.Capacity) ∧
    ((Vector.moveConstruct s).1.Size ≤ (Vector.moveConstruct s).1.Capacity ∧
      (Vector.moveConstruct s).2.Size ≤ (Vector.moveConstruct s).2.Capacity) ∧
    (∃ w, v.Reserve n = .ok w ∧ w.Size ≤ w.Capacity) ∧
    (∃ w, v.Resize n = .ok w ∧ w.Size ≤ w.Capacity) ∧
    (∃ w, v.PushBack x = .ok w ∧ w.Size ≤ w.Capacity) ∧
    (0 < v.Size → ∃ w, v.PopBack = .ok w ∧ w.Size ≤ w.Capacity) ∧
    (p < v.Size → ∃ w, v.Emplace p x = .ok (w, p) ∧ w.Size ≤ w.Capacity) ∧
    (p < v.Size → ∃ w, v.Erase p = .ok (w, p) ∧ w.Size ≤ w.Capacity) ∧
    (∃ w, v.copyAssign s = .ok (w, s) ∧ w.Size ≤ w.Capacity) ∧
    ((v.moveAssign s).1.Size ≤ (v.moveAssign s).1.Capacity ∧
      (v.moveAssign s).2.Size ≤ (v.moveAssign s).2.Capacity) ∧
    ((v.Swap s).1.Size ≤ (v.Swap s).1.Capacity ∧ (v.Swap s).2.Size ≤ (v.Swap s).2.Capacity) := by
  have hvr := (holds_iff_rep v xs).1 hv
  have hsr := (holds_iff_rep s zs).1 hs
  have hsz : v.Size = xs.length := hv.1
  have hvle : v.Size ≤ v.Capacity := hv.2.1
  have hsle : s.Size ≤ s.Capacity := hs.2.1
  refine ⟨Nat.le_refl _, ?_, ?_, ⟨hsle, Nat.le_refl _⟩, ?_, ?_, ?_, fun hpos => ?_,
    fun hp => ?_, fun hp => ?_, copyAssign_size_bound v s xs zs hvr hsr, ⟨hsle, hvle⟩,
    ⟨hsle, hvle⟩⟩
  · obtain ⟨w, hw, hrep, -⟩ := ofSize_rep (T := T) n hfit
    exact ⟨w, hw, rep_size_le hrep⟩
  · obtain ⟨w, hw, hrep, -⟩ := copy_rep s zs hsr
    exact ⟨w, hw, rep_size_le hrep⟩
  · obtain ⟨w, hw, hrep, -⟩ := Reserve_rep v xs n hvr (Or.inr hfit)
    exact ⟨w, hw, rep_size_le hrep⟩
  · rcases Nat.lt_trichotomy n xs.length with hlt | heq | hgt
    · obtain ⟨w, hw, hrep, -⟩ := Resize_shrink_rep v xs n hvr hlt
      exact ⟨w, hw, rep_size_le hrep⟩
    · have h1 : ¬ v.size_ < n := by
        have : v.size_ = xs.length := hsz
        omega
      have h2 : ¬ v.size_ > n := by
        have : v.size_ = xs.length := hsz
        omega
      refine ⟨⟨v.data_, n⟩, by simp only [Vector.Resize, if_neg h1, if_neg h2], ?_⟩
      show n ≤ v.data_.buffer_.length
      rw [heq]
      exact hvr.2.1
    · obtain ⟨w, hw, hrep, -⟩ := Resize_grow_rep v xs n hvr hgt (Or.inr hfit)
      exact ⟨w, hw, rep_size_le hrep⟩
  · obtain ⟨w, hw, hrep, -⟩ := PushBack_rep v xs x hvr
    exact ⟨w, hw, rep_size_le hrep⟩
  · obtain ⟨w, hw, hrep, -⟩ := PopBack_rep v xs hvr (by omega)
    exact ⟨w, hw, rep_size_le hrep⟩
  · obtain ⟨w, hw, hrep, -⟩ := Emplace_rep v xs p x hvr (by omega)
    exact ⟨w, hw, rep_size_le hrep⟩
  · obtain ⟨w, hw, hrep, -⟩ := Erase_rep v xs p hvr (by omega)
    exact ⟨w, hw, rep_size_le hrep⟩

/-! ## Element operations that may raise: the state left by an exception -/

end VectorModel
